import Mathlib

/-!
Verification of the vt100 terminal emulator (vt100.go).

The grid/cursor/resize layer is translated directly from vt100.go.  Go
slice-index panics are made explicit: every operation that can panic
returns an Option, with none standing for a panic.  Machine integers are
modelled as Int (no arithmetic here approaches 2^63, and the source never
relies on wraparound).

The command decoder and interpreter live in command.go, which is not part
of the sources available here (only its tests are); those definitions are
modelled from the specification and are marked as such in their doc
comments.
-/

/-- Intensity of text, translated from vt100.go (Normal/Bold/Faint consts). -/
inductive Intensity where
  | Normal
  | Bold
  | Faint
deriving DecidableEq, Repr

/-- Modelled from the spec (section 4.4), standing in for termenv.Color from the
missing command.go color handling: a 16-entry ANSI palette plus a default
sentinel.  Bright colors are the distinct palette entries 8 through 15. -/
inductive Color where
  | default
  | ansi (n : Nat)
deriving DecidableEq, Repr

/-- Format represents the display format of text on a terminal,
translated field-for-field from vt100.go. -/
structure Format where
  Reset : Bool
  Fg : Color
  Bg : Color
  Intensity : Intensity
  Italic : Bool
  Underline : Bool
  Blink : Bool
  Reverse : Bool
  Conceal : Bool
  CrossOut : Bool
  Overline : Bool
deriving DecidableEq, Repr

/-- The zero value of Format (Go's Format{}): default colors, Normal
intensity, all flags false. -/
def Format0 : Format :=
  { Reset := false, Fg := Color.default, Bg := Color.default,
    Intensity := Intensity.Normal, Italic := false, Underline := false,
    Blink := false, Reverse := false, Conceal := false, CrossOut := false,
    Overline := false }

/-- Cursor represents both the position and text type of the cursor
(vt100.go). -/
structure Cursor where
  Y : Int
  X : Int
  F : Format
deriving DecidableEq, Repr

/-- VT100 represents a simplified, raw VT100 terminal (vt100.go).  The
DebugLogs writer and the mutex are omitted: logging has no effect on the
state and every public operation holds the lock for its whole duration, so
the sequential semantics modelled here is exactly the per-operation
semantics of the source. -/
structure VT100 where
  Height : Int
  Width : Int
  Content : List (List Char)
  Format : List (List Format)
  AutoResizeY : Bool
  AutoResizeX : Bool
  savedCursor : Cursor
  unparsed : List Char
  maxY : Int
  Cursor : Cursor
deriving DecidableEq, Repr

/-- Update one cell of a row-major grid (the Go assignment g[y][x] = a,
assuming indices in range). -/
def setCell (g : List (List α)) (y x : Nat) (a : α) : List (List α) :=
  g.set y ((g.getD y []).set x a)

/-- Read the rune at (i, j), with the rune zero value for missing cells. -/
def getC (v : VT100) (i j : Nat) : Char :=
  (v.Content.getD i []).getD j (Char.ofNat 0)

/-- Read the format at (i, j), with the Format zero value for missing cells. -/
def getF (v : VT100) (i j : Nat) : Format :=
  (v.Format.getD i []).getD j Format0

/-- clear from vt100.go.  The Go guard is
y >= len(v.Content) || x >= len(v.Content[0]), evaluated left to right;
after it, the assignments v.Content[y][x] and v.Format[y][x] panic on a
negative index, on an empty Content (reading Content[0] in the guard), or
on a row that is too short.  Panics are returned as none. -/
def VT100.clear (v : VT100) (y x : Int) : Option VT100 :=
  if y ≥ (v.Content.length : Int) then some v
  else
    match v.Content with
    | [] => none
    | r0 :: _ =>
      if x ≥ (r0.length : Int) then some v
      else if y < 0 ∨ x < 0 then none
      else if (v.Content.getD y.toNat []).length ≤ x.toNat ∨
              v.Format.length ≤ y.toNat ∨
              (v.Format.getD y.toNat []).length ≤ x.toNat then none
      else
        some { v with Content := setCell v.Content y.toNat x.toNat ' ',
                      Format := setCell v.Format y.toNat x.toNat Format0 }

/-- The inner loop of eraseRegion (and of the clearing loops of NewVT100
and resize): clear the n cells (y, x0) .. (y, x0+n-1), in increasing
column order. -/
def VT100.clearColsRange (v : VT100) (y x0 : Int) : Nat → Option VT100
  | 0 => some v
  | n + 1 => do
      let v1 ← v.clearColsRange y x0 n
      v1.clear y (x0 + (n : Int))

/-- The outer loop of eraseRegion (and of NewVT100's initialisation): for
each of the m rows y0 .. y0+m-1, clear the nx cells starting at column x0. -/
def VT100.clearRowsRange (v : VT100) (x0 : Int) (nx : Nat) (y0 : Int) : Nat → Option VT100
  | 0 => some v
  | m + 1 => do
      let v1 ← v.clearRowsRange x0 nx y0 m
      v1.clearColsRange (y0 + (m : Int)) x0 nx

/-- eraseRegion from vt100.go: normalize the corners, then clear every
cell of the inclusive rectangle. -/
def VT100.eraseRegion (v : VT100) (y1 x1 y2 x2 : Int) : Option VT100 :=
  let p := if y1 > y2 then (y2, y1) else (y1, y2)
  let q := if x1 > x2 then (x2, x1) else (x1, x2)
  v.clearRowsRange q.1 (q.2 - q.1 + 1).toNat p.1 (p.2 - p.1 + 1).toNat

/-- eraseDirection from vt100.go: forward is 0, backward is 1, everything
is 2. -/
inductive eraseDirection where
  | eraseForward
  | eraseBack
  | eraseAll
deriving DecidableEq, Repr

/-- eraseColumns from vt100.go: erase columns from the current line. -/
def VT100.eraseColumns (v : VT100) (d : eraseDirection) : Option VT100 :=
  match d with
  | .eraseBack => v.eraseRegion v.Cursor.Y 0 v.Cursor.Y v.Cursor.X
  | .eraseForward => v.eraseRegion v.Cursor.Y v.Cursor.X v.Cursor.Y (v.Width - 1)
  | .eraseAll => v.eraseRegion v.Cursor.Y 0 v.Cursor.Y (v.Width - 1)

/-- eraseLines from vt100.go: erase lines; whatever is selected, the
entire current line is erased. -/
def VT100.eraseLines (v : VT100) (d : eraseDirection) : Option VT100 :=
  match d with
  | .eraseBack => v.eraseRegion 0 0 v.Cursor.Y (v.Width - 1)
  | .eraseForward => v.eraseRegion v.Cursor.Y 0 (v.Height - 1) (v.Width - 1)
  | .eraseAll => v.eraseRegion 0 0 (v.Height - 1) (v.Width - 1)

/-- scrollOne from vt100.go.  Row pointers are shifted up by one; the old
first row's storage is zeroed (runes to ' ', and its format row is zeroed
by iterating over the CONTENT row's length, as in the source) and becomes
the bottom row, indexed as Content[Height-1].  Index panics (empty grid,
Height-1 out of range, format row shorter than the content row) are none. -/
def VT100.scrollOne (v : VT100) : Option VT100 :=
  match v.Content, v.Format with
  | c0 :: crest, f0 :: frest =>
    if 0 ≤ v.Height - 1 ∧ (v.Height - 1).toNat < crest.length + 1 ∧
       (v.Height - 1).toNat < frest.length + 1 ∧ c0.length ≤ f0.length then
      some { v with
        Content := (crest ++ [crest.getLastD c0]).set (v.Height - 1).toNat
          (List.replicate c0.length ' '),
        Format := (frest ++ [frest.getLastD f0]).set (v.Height - 1).toNat
          (List.replicate c0.length Format0 ++ f0.drop c0.length),
        Cursor := { v.Cursor with Y := v.Height - 1 } }
    else none
  | _, _ => none

/-- advance from vt100.go: advance the cursor, wrapping to the next line
if need be. -/
def VT100.advance (v : VT100) : VT100 :=
  let v1 := { v with Cursor := { v.Cursor with X := v.Cursor.X + 1 } }
  if v1.Cursor.X ≥ v1.Width ∧ v1.AutoResizeX = false then
    { v1 with Cursor := { v1.Cursor with X := 0, Y := v1.Cursor.Y + 1 } }
  else v1

/-- home from vt100.go: move the cursor to the coordinates y x. -/
def VT100.home (v : VT100) (y x : Int) : VT100 :=
  { v with Cursor := { v.Cursor with Y := y, X := x } }

/-- backspace from vt100.go. -/
def VT100.backspace (v : VT100) : VT100 :=
  let x := v.Cursor.X - 1
  if x < 0 then
    if v.Cursor.Y = 0 then { v with Cursor := { v.Cursor with X := 0 } }
    else { v with Cursor := { v.Cursor with X := v.Width - 1, Y := v.Cursor.Y - 1 } }
  else { v with Cursor := { v.Cursor with X := x } }

/-- save from vt100.go. -/
def VT100.save (v : VT100) : VT100 :=
  { v with savedCursor := v.Cursor }

/-- unsave from vt100.go. -/
def VT100.unsave (v : VT100) : VT100 :=
  { v with Cursor := v.savedCursor }

/-- UsedHeight from vt100.go: maxY + 1. -/
def VT100.UsedHeight (v : VT100) : Int :=
  v.maxY + 1

/-- The h > Height branch of resize: append n fresh rows of length w
(w is the terminal's Width, unchanged during this loop), clearing each
appended row's cells (base+row, 0..w-1).  make with a negative length
panics in Go, hence the w < 0 guard. -/
def VT100.growRows (v : VT100) (base w : Int) : Nat → Option VT100
  | 0 => some v
  | n + 1 => do
      let v1 ← v.growRows base w n
      if w < 0 then none
      else
        let v2 := { v1 with
          Content := v1.Content ++ [List.replicate w.toNat (Char.ofNat 0)],
          Format := v1.Format ++ [List.replicate w.toNat Format0] }
        v2.clearColsRange (base + (n : Int)) 0 w.toNat

/-- One iteration of the w > Width branch of resize: replace row i by a
length-w copy (fresh zero-valued cells beyond the old length, as Go's
make-then-copy does). -/
def VT100.extendRowW (v : VT100) (i : Nat) (w : Int) : VT100 :=
  let row := v.Content.getD i []
  let rowF := v.Format.getD i []
  { v with
    Content := v.Content.set i ((row ++ List.replicate w.toNat (Char.ofNat 0)).take w.toNat),
    Format := v.Format.set i ((rowF ++ List.replicate w.toNat Format0).take w.toNat) }

/-- The w > Width branch of resize, rows 0 .. k-1: extend each row to
length w, then clear the new cells (i, W .. w-1).  W is the original
Width.  Accessing v.Format[i] for a missing row, or make with negative w,
panics in Go, hence the guards. -/
def VT100.growWAux (v : VT100) (W w : Int) : Nat → Option VT100
  | 0 => some v
  | i + 1 => do
      let v1 ← v.growWAux W w i
      if w < 0 ∨ v1.Format.length ≤ i then none
      else
        let v2 := v1.extendRowW i w
        v2.clearColsRange (i : Int) W (w - W).toNat

/-- The height branch of resize from vt100.go: grow (append cleared rows)
when h > Height, truncate when h < Height.  Go slicing panics for h < 0
or beyond the backing storage, hence the guards returning none. -/
def VT100.resizeHeightStep (v : VT100) (h : Int) : Option VT100 :=
  if h > v.Height then do
    let g ← v.growRows v.Height v.Width (h - v.Height).toNat
    pure { g with Height := h }
  else if h < v.Height then
    if h < 0 ∨ v.Content.length < h.toNat ∨ v.Format.length < h.toNat then none
    else pure { v with Content := v.Content.take h.toNat,
                       Format := v.Format.take h.toNat, Height := h }
  else pure v

/-- The width branch of resize from vt100.go: per-row extend (make, copy,
clear the new columns) when w > Width, per-row truncate when w < Width.
Go's make and slicing panic on a negative length or a too-short row,
hence the guards returning none. -/
def VT100.resizeWidthStep (v : VT100) (w : Int) : Option VT100 :=
  if w > v.Width then do
    let g ← v.growWAux v.Width w v.Content.length
    pure { g with Width := w }
  else if w < v.Width then
    if w < 0 ∨ ¬(v.Content.all fun r => w.toNat ≤ r.length) ∨
       ¬(v.Format.all fun r => w.toNat ≤ r.length) then none
    else pure { v with Content := v.Content.map (List.take w.toNat),
                       Format := v.Format.map (List.take w.toNat), Width := w }
  else pure v

/-- resize from vt100.go, branch for branch: grow or truncate rows, clamp
maxY when h < maxY, grow or truncate columns, clamp Cursor.X when it is
at or beyond the new Width. -/
def VT100.resize (v : VT100) (h w : Int) : Option VT100 := do
  let v1 ← v.resizeHeightStep h
  let v2 := if h < v1.maxY then { v1 with maxY := h - 1 } else v1
  let v3 ← v2.resizeWidthStep w
  pure (if v3.Cursor.X ≥ v3.Width then
          { v3 with Cursor := { v3.Cursor with X := v3.Width - 1 } }
        else v3)

/-- Resize from vt100.go (the public, lock-taking wrapper of resize). -/
def VT100.Resize (v : VT100) (h w : Int) : Option VT100 :=
  v.resize h w

/-- scrollOrResizeYIfNeeded from vt100.go. -/
def VT100.scrollOrResizeYIfNeeded (v : VT100) : Option VT100 :=
  if v.Cursor.Y ≥ v.Height then
    if v.AutoResizeY = true then v.resize (v.Cursor.Y + 1) v.Width
    else v.scrollOne
  else some v

/-- resizeXIfNeeded from vt100.go. -/
def VT100.resizeXIfNeeded (v : VT100) : Option VT100 :=
  if v.AutoResizeX = true ∧ v.Cursor.X + 1 ≥ v.Width then
    v.resize v.Height (v.Cursor.X + 1)
  else some v

/-- put from vt100.go: record maxY, scroll or resize vertically, resize
horizontally, write the rune and the cursor's format at the cursor, and
advance.  The row indexing panics (returns none) when the cursor is out
of range at the write. -/
def VT100.put (v : VT100) (r : Char) : Option VT100 := do
  let va := if v.Cursor.Y > v.maxY then { v with maxY := v.Cursor.Y } else v
  let vb ← va.scrollOrResizeYIfNeeded
  let vc ← vb.resizeXIfNeeded
  if vc.Cursor.Y < 0 ∨ (vc.Content.length : Int) ≤ vc.Cursor.Y ∨ vc.Cursor.X < 0 then none
  else
    let y := vc.Cursor.Y.toNat
    let x := vc.Cursor.X.toNat
    if (vc.Content.getD y []).length ≤ x ∨ vc.Format.length ≤ y ∨
       (vc.Format.getD y []).length ≤ x then none
    else
      pure ({ vc with Content := setCell vc.Content y x r,
                      Format := setCell vc.Format y x vc.Cursor.F }).advance

/-- NewVT100 from vt100.go: panics (none) when a dimension is ≤ 0;
otherwise builds a y-by-x grid of zero-valued cells, then clears every
cell via the same row-then-column clear loop as the source. -/
def NewVT100 (y x : Int) : Option VT100 :=
  if y ≤ 0 ∨ x ≤ 0 then none
  else
    let v : VT100 :=
      { Height := y, Width := x,
        Content := List.replicate y.toNat (List.replicate x.toNat (Char.ofNat 0)),
        Format := List.replicate y.toNat (List.replicate x.toNat Format0),
        Cursor := { Y := 0, X := 0, F := Format0 },
        AutoResizeY := false, AutoResizeX := false,
        savedCursor := { Y := 0, X := 0, F := Format0 },
        unparsed := [], maxY := -1 }
    v.clearRowsRange 0 x.toNat 0 y.toNat

example : (NewVT100 2 2).map (fun v => v.Content) = some [[' ', ' '], [' ', ' ']] := by decide
example : (NewVT100 2 2).map (fun v => v.UsedHeight) = some 0 := by decide
example : NewVT100 0 2 = none := by decide

/-- Modelled from the spec (section 4.1 and 9): the Command variants
produced by the decoder of the missing command.go.  Parameter absence is
distinguishable from the value 0, so each parameter is an optional
natural. -/
inductive Command where
  | putRune (r : Char)
  | control (b : Char)
  | escape (final : Char) (params : List (Option Nat))
deriving DecidableEq, Repr

/-- Modelled from the spec (section 4.3.4): the effect of one SGR
parameter on the cursor format, from the missing command.go.  Unknown
codes are logged and skipped, leaving the format unchanged. -/
def updateFormat (f : Format) (p : Nat) : Format :=
  if p = 0 then { Format0 with Reset := true }
  else if p = 1 then { f with Intensity := .Bold }
  else if p = 2 then { f with Intensity := .Faint }
  else if p = 3 then { f with Italic := true }
  else if p = 4 then { f with Underline := true }
  else if p = 5 ∨ p = 6 then { f with Blink := true }
  else if p = 7 then { f with Reverse := true }
  else if p = 8 then { f with Conceal := true }
  else if p = 9 then { f with CrossOut := true }
  else if p = 22 then { f with Intensity := .Normal }
  else if p = 23 then { f with Italic := false }
  else if p = 24 then { f with Underline := false }
  else if p = 25 then { f with Blink := false }
  else if p = 27 then { f with Reverse := false }
  else if p = 28 then { f with Conceal := false }
  else if p = 29 then { f with CrossOut := false }
  else if 30 ≤ p ∧ p ≤ 37 then { f with Fg := .ansi (p - 30) }
  else if p = 39 then { f with Fg := .default }
  else if 40 ≤ p ∧ p ≤ 47 then { f with Bg := .ansi (p - 40) }
  else if p = 49 then { f with Bg := .default }
  else if p = 53 then { f with Overline := true }
  else if p = 55 then { f with Overline := false }
  else if 90 ≤ p ∧ p ≤ 97 then { f with Fg := .ansi (p - 90 + 8) }
  else if 100 ≤ p ∧ p ≤ 107 then { f with Bg := .ansi (p - 100 + 8) }
  else f

/-- Modelled from the spec (section 4.3.3): a cursor-motion parameter is
1 when absent or zero, else its value. -/
def argDef1 (params : List (Option Nat)) (i : Nat) : Int :=
  match params.getD i none with
  | none => 1
  | some 0 => 1
  | some n => (n : Int)

/-- Modelled from the spec (section 4.3.3): an erase-mode parameter
defaults to 0 when absent. -/
def argDef0 (params : List (Option Nat)) : Nat :=
  (params.getD 0 none).getD 0

/-- Modelled from the spec (section 4.3.2): the horizontal-tab handler of
the missing command.go advances the cursor to the next tab stop, clamped
to width - 1.  The spec text says stops every 8 columns, but the in-repo
test TestHorizontalTab pins the tab width at 4 (input at columns 0, 2, 5
and 9 lands at 4, 4, 8 and 11 on a width-12 row); the repository's own
test is followed here.  Division is Go's truncated division. -/
def tab (v : VT100) : VT100 :=
  let ts := (Int.tdiv v.Cursor.X 4 + 1) * 4
  let x := if ts < v.Width then ts else v.Width - 1
  { v with Cursor := { v.Cursor with X := x } }

/-- Modelled from the spec (section 4.3.3): dispatch of a decoded CSI
sequence from the missing command.go.  The result pairs the state with an
error flag: true means the command was reported as unsupported (it is
logged and skipped); the spec's open question 1 records that cursor-motion
opcodes do not clamp to the grid.  none is a panic inside a grid
operation. -/
def displayEscape (v : VT100) (final : Char) (params : List (Option Nat)) :
    Option (VT100 × Bool) :=
  if final = 'A' then
    some ({ v with Cursor := { v.Cursor with Y := v.Cursor.Y - argDef1 params 0 } }, false)
  else if final = 'B' then
    some ({ v with Cursor := { v.Cursor with Y := v.Cursor.Y + argDef1 params 0 } }, false)
  else if final = 'C' then
    some ({ v with Cursor := { v.Cursor with X := v.Cursor.X + argDef1 params 0 } }, false)
  else if final = 'D' then
    some ({ v with Cursor := { v.Cursor with X := v.Cursor.X - argDef1 params 0 } }, false)
  else if final = 'H' ∨ final = 'f' then
    some (v.home (argDef1 params 0 - 1) (argDef1 params 1 - 1), false)
  else if final = 'J' then
    match argDef0 params with
    | 0 => (v.eraseLines .eraseForward).map (fun u => (u, false))
    | 1 => (v.eraseLines .eraseBack).map (fun u => (u, false))
    | 2 => (v.eraseLines .eraseAll).map (fun u => (u, false))
    | _ => some (v, true)
  else if final = 'K' then
    match argDef0 params with
    | 0 => (v.eraseColumns .eraseForward).map (fun u => (u, false))
    | 1 => (v.eraseColumns .eraseBack).map (fun u => (u, false))
    | 2 => (v.eraseColumns .eraseAll).map (fun u => (u, false))
    | _ => some (v, true)
  else if final = 'm' then
    let ps : List Nat := if params.isEmpty then [0] else params.map (fun p => p.getD 0)
    some ({ v with Cursor := { v.Cursor with F := ps.foldl updateFormat v.Cursor.F } }, false)
  else if final = 's' then some (v.save, false)
  else if final = 'u' then some (v.unsave, false)
  else some (v, true)

/-- Modelled from the spec (sections 4.3.1 and 4.3.2): application of a
decoded Command to the terminal, from the missing command.go.  Printable
runes go through put; the four control bytes BS/HT/LF/CR move the cursor;
escapes dispatch on the final byte.  The error flag is true for commands
that are reported as unsupported and skipped. -/
def display (c : Command) (v : VT100) : Option (VT100 × Bool) :=
  match c with
  | .putRune r => (v.put r).map (fun u => (u, false))
  | .control b =>
      if b = Char.ofNat 8 then some (v.backspace, false)
      else if b = Char.ofNat 9 then some (tab v, false)
      else if b = Char.ofNat 10 then
        some ({ v with Cursor := { v.Cursor with Y := v.Cursor.Y + 1 } }, false)
      else if b = Char.ofNat 13 then
        some ({ v with Cursor := { v.Cursor with X := 0 } }, false)
      else some (v, true)
  | .escape f ps => displayEscape v f ps

/-- Process from vt100.go: apply a single pre-decoded command under the
lock (the lock is identity here). -/
def VT100.Process (v : VT100) (c : Command) : Option (VT100 × Bool) :=
  display c v

/-- Modelled from the spec (section 4.1): result of one decoding step.
eof is the distinguished end signal on an empty buffer, needMore is a
premature end of stream inside an escape (nothing consumed), badInput a
malformed sequence (nothing consumed by the caller), and ok carries the
command and the unconsumed rest. -/
inductive DecodeResult where
  | eofR
  | needMore
  | badInput
  | ok (c : Command) (rest : List Char)
deriving DecidableEq, Repr

/-- A final byte of a CSI sequence is in the range 0x40 - 0x7E. -/
def isCSIFinal (c : Char) : Bool :=
  64 ≤ c.toNat && c.toNat ≤ 126

/-- Modelled from the spec (section 4.1, step 2): collect digits and
semicolons into the parameter list until a final byte arrives; a rune
that is neither is a malformed sequence. -/
def decodeCSI (acc : List (Option Nat)) (cur : Option Nat) : List Char → DecodeResult
  | [] => .needMore
  | c :: rest =>
      if c.isDigit then decodeCSI acc (some ((cur.getD 0) * 10 + (c.toNat - 48))) rest
      else if c = ';' then decodeCSI (acc ++ [cur]) none rest
      else if isCSIFinal c then
        .ok (.escape c (if acc.isEmpty ∧ cur = none then [] else acc ++ [cur])) rest
      else .badInput

/-- Modelled from the spec (section 4.1, step 2): a non-CSI escape skips
until a rune in 0x40 - 0x7E is consumed and yields a best-effort Escape
with no parameters. -/
def skipEscape : List Char → DecodeResult
  | [] => .needMore
  | c :: rest => if isCSIFinal c then .ok (.escape c []) rest else skipEscape rest

/-- Modelled from the spec (section 4.1, step 2): after ESC, a bracket
starts a CSI sequence, anything else is an unsupported or private escape. -/
def decodeEscape : List Char → DecodeResult
  | [] => .needMore
  | c :: rest => if c = '[' then decodeCSI [] none rest else skipEscape (c :: rest)

/-- Modelled from the spec (section 4.1): one decoding step of the missing
command.go, over a rune buffer.  The four listed control bytes become
Control commands, ESC starts an escape, anything else is a printable
rune. -/
def decode : List Char → DecodeResult
  | [] => .eofR
  | c :: rest =>
      if c = Char.ofNat 27 then decodeEscape rest
      else if c = Char.ofNat 8 ∨ c = Char.ofNat 9 ∨ c = Char.ofNat 10 ∨ c = Char.ofNat 13 then
        .ok (.control c) rest
      else .ok (.putRune c) rest

/-- The decode-and-apply loop of Write from vt100.go, with an explicit
step budget so that the recursion is structural: a successful decode
consumes at least one rune (theorem decode_ok_length below), so a budget
of the buffer length makes procN with that budget exactly the unbounded
Go loop.  The loop stops with residual buffer when the decoder fails, and
display errors are logged and skipped, never stopping the loop. -/
def procN : Nat → VT100 → List Char → Option (VT100 × List Char)
  | 0, v, buf => some (v, buf)
  | n + 1, v, buf =>
      match decode buf with
      | .eofR => some (v, [])
      | .needMore => some (v, buf)
      | .badInput => some (v, buf)
      | .ok c rest => do
          let p ← display c v
          procN n p.1 rest

/-- The Write loop at its exact budget: see procN. -/
def procBuf (v : VT100) (buf : List Char) : Option (VT100 × List Char) :=
  procN buf.length v buf

/-- Write from vt100.go: prepend the unparsed residual, decode and apply
commands until the buffer runs out or decoding fails, stash a small
(fewer than 12 runes) nonempty residual, and report the original length. -/
def VT100.Write (v : VT100) (dt : List Char) : Option (VT100 × Nat) := do
  let p ← procBuf { v with unparsed := [] } (v.unparsed ++ dt)
  some ({ p.1 with unparsed := if 0 < p.2.length ∧ p.2.length < 12 then p.2 else [] },
        dt.length)

/-- Build a terminal the way the vttest.FromLines helper of the test
suite does: the given rows, default formats, cursor at the origin. -/
def fromLines (lines : List (List Char)) : VT100 :=
  { Height := lines.length, Width := (lines.headD []).length,
    Content := lines,
    Format := lines.map (fun r => List.replicate r.length Format0),
    Cursor := { Y := 0, X := 0, F := Format0 },
    AutoResizeY := false, AutoResizeX := false,
    savedCursor := { Y := 0, X := 0, F := Format0 },
    unparsed := [], maxY := -1 }

example :
    (display (.putRune 'z')
        { fromLines [['a','b','c'], ['d','e','f'], ['g','h','i']] with
            Cursor := { Y := 1, X := 1, F := Format0 } }).map
      (fun p => (p.1.Content, p.1.Cursor.X, p.1.Cursor.Y)) =
    some ([['a','b','c'], ['d','z','f'], ['g','h','i']], 2, 1) := by decide

example :
    decode [Char.ofNat 27, '[', '3', ';', '1', 'H'] =
      .ok (.escape 'H' [some 3, some 1]) [] := by decide

example :
    (display (.escape 'H' [some 3, some 1])
        (fromLines [['a','b','c'], ['d','e','f'], ['g','h','i']])).map
      (fun p => (p.1.Cursor.Y, p.1.Cursor.X)) = some (2, 0) := by decide

example :
    (display (.escape 'J' [])
        { fromLines [['a','b','c'], ['d','e','f'], ['g','h','i']] with
            Cursor := { Y := 1, X := 2, F := Format0 } }).map
      (fun p => p.1.Content) =
    some [['a','b','c'], [' ',' ',' '], [' ',' ',' ']] := by decide

example :
    (display (.escape 'K' [some 1])
        { fromLines [['a','b','c','d'], ['e','f','g','h'], ['i','j','k','l']] with
            Cursor := { Y := 1, X := 2, F := Format0 } }).map
      (fun p => p.1.Content) =
    some [['a','b','c','d'], [' ',' ',' ','h'], ['i','j','k','l']] := by decide

example :
    ((fromLines [['.','.','.','.']]).Write
      ([Char.ofNat 27, '[', '2', 'm', 'a'] ++
       [Char.ofNat 27, '[', '5', ';', '2', '2', ';', '3', '1', 'm', 'b'] ++
       [Char.ofNat 27, '[', 'm', 'c'] ++
       [Char.ofNat 27, '[', '4', ';', '4', '6', 'm', 'd'])).map
      (fun p => (p.1.Content, p.1.Format)) =
    some ([['a','b','c','d']],
      [[{ Format0 with Intensity := .Faint },
        { Format0 with Blink := true, Fg := .ansi 1 },
        { Format0 with Reset := true },
        { Format0 with Reset := true, Underline := true, Bg := .ansi 6 }]]) := by decide

example :
    ((fromLines [['A','A',' ',' ',' ',' ',' ',' ',' ',' ',' ',' ']]).Write
      ([Char.ofNat 9, 'b', Char.ofNat 9, 'c', Char.ofNat 9, 'd'])).map
      (fun p => p.1.Content) =
    some [['A','A',' ',' ','b',' ',' ',' ','c',' ',' ','d']] := by decide

/-- The grid-shape invariant of the spec (section 3, invariant 1):
exactly height rows in both grids, every row of length width, with
non-negative dimensions. -/
def WFshape (v : VT100) : Prop :=
  v.Content.length = v.Height.toNat ∧
  v.Format.length = v.Height.toNat ∧
  0 ≤ v.Height ∧ 0 ≤ v.Width ∧
  (∀ i, i < v.Content.length → (v.Content.getD i []).length = v.Width.toNat) ∧
  (∀ i, i < v.Format.length → (v.Format.getD i []).length = v.Width.toNat)

instance (v : VT100) : Decidable (WFshape v) := by
  unfold WFshape
  infer_instance

/-- All components of the state other than the two grids. -/
def shell (v : VT100) : Int × Int × Cursor × Cursor × Int × Bool × Bool × List Char :=
  (v.Height, v.Width, v.Cursor, v.savedCursor, v.maxY, v.AutoResizeY, v.AutoResizeX, v.unparsed)

/-- The in-bounds effect of clear: both grids updated at one cell. -/
def clear0 (v : VT100) (y x : Nat) : VT100 :=
  { v with Content := setCell v.Content y x ' ', Format := setCell v.Format y x Format0 }

theorem length_setCell (g : List (List α)) (a b : Nat) (x : α) :
    (setCell g a b x).length = g.length := by
  simp [setCell]

theorem rowlen_setCell (g : List (List α)) (a b : Nat) (x : α) (i : Nat) :
    ((setCell g a b x).getD i []).length = (g.getD i []).length := by
  unfold setCell
  by_cases hia : i = a
  · subst hia
    by_cases ha : i < g.length
    · rw [List.getD_eq_getElem?_getD, List.getElem?_set_eq_of_lt _ ha]
      simp [List.getD_eq_getElem?_getD]
    · rw [List.getD_eq_getElem?_getD, List.getD_eq_getElem?_getD,
        List.getElem?_eq_none (by simp only [List.length_set]; omega),
        List.getElem?_eq_none (by omega)]
  · rw [List.getD_eq_getElem?_getD, List.getElem?_set_ne (by omega),
      ← List.getD_eq_getElem?_getD]

theorem getD_setCell (g : List (List α)) (a b : Nat) (x d : α)
    (ha : a < g.length) (hb : b < (g.getD a []).length) (i j : Nat) :
    ((setCell g a b x).getD i []).getD j d =
      if i = a ∧ j = b then x else (g.getD i []).getD j d := by
  unfold setCell
  by_cases hia : i = a
  · subst hia
    rw [List.getD_eq_getElem?_getD (g.set i _), List.getElem?_set_eq_of_lt _ ha]
    by_cases hjb : j = b
    · subst hjb
      simp only [Option.getD_some]
      rw [List.getD_eq_getElem?_getD, List.getElem?_set_eq_of_lt _ hb]
      simp
    · simp only [Option.getD_some]
      rw [List.getD_eq_getElem?_getD, List.getElem?_set_ne (by omega),
        ← List.getD_eq_getElem?_getD]
      simp [hjb]
  · rw [List.getD_eq_getElem?_getD (g.set a _), List.getElem?_set_ne (by omega),
      ← List.getD_eq_getElem?_getD]
    simp [hia]

theorem clear_some (v u : VT100) (y x : Int) (h : v.clear y x = some u) :
    shell u = shell v ∧
    u.Content.length = v.Content.length ∧ u.Format.length = v.Format.length ∧
    (∀ i, (u.Content.getD i []).length = (v.Content.getD i []).length) ∧
    (∀ i, (u.Format.getD i []).length = (v.Format.getD i []).length) := by
  unfold VT100.clear at h
  split at h
  · cases h
    exact ⟨rfl, rfl, rfl, fun _ => rfl, fun _ => rfl⟩
  · split at h
    · cases h
  -- nonempty content
    next r0 rest heq =>
      split at h
      · cases h
        exact ⟨rfl, rfl, rfl, fun _ => rfl, fun _ => rfl⟩
      · split at h
        · cases h
        · split at h
          · cases h
          · cases h
            refine ⟨rfl, ?_, ?_, ?_, ?_⟩
            · exact length_setCell ..
            · exact length_setCell ..
            · exact fun i => rowlen_setCell ..
            · exact fun i => rowlen_setCell ..

theorem shell_fields {u v : VT100} (h : shell u = shell v) :
    u.Height = v.Height ∧ u.Width = v.Width ∧ u.Cursor = v.Cursor ∧
    u.savedCursor = v.savedCursor ∧ u.maxY = v.maxY ∧
    u.AutoResizeY = v.AutoResizeY ∧ u.AutoResizeX = v.AutoResizeX ∧
    u.unparsed = v.unparsed := by
  unfold shell at h
  simp only [Prod.ext_iff] at h
  exact ⟨h.1, h.2.1, h.2.2.1, h.2.2.2.1, h.2.2.2.2.1, h.2.2.2.2.2.1,
    h.2.2.2.2.2.2.1, h.2.2.2.2.2.2.2⟩

theorem clear_in (v : VT100) (hs : WFshape v) (y x : Int)
    (hy0 : 0 ≤ y) (hy : y < v.Height) (hx0 : 0 ≤ x) (hx : x < v.Width) :
    v.clear y x = some (clear0 v y.toNat x.toNat) := by
  obtain ⟨h1, h2, hH, hW, hrc, hrf⟩ := hs
  unfold VT100.clear
  rw [if_neg (by omega)]
  cases hC : v.Content with
  | nil => rw [hC] at h1; simp at h1; omega
  | cons r0 rest =>
    have hr0 : r0.length = v.Width.toNat := by
      have h := hrc 0 (by rw [hC]; simp)
      rwa [hC] at h
    have hry : ((r0 :: rest).getD y.toNat []).length = v.Width.toNat := by
      have h := hrc y.toNat (by omega)
      rwa [hC] at h
    have hfy : (v.Format.getD y.toNat []).length = v.Width.toNat := hrf y.toNat (by omega)
    dsimp only
    rw [if_neg (by omega), if_neg (by omega), if_neg (by push_neg; omega)]
    unfold clear0
    rw [hC]

theorem clear_oob_y (v : VT100) (hs : WFshape v) (y x : Int)
    (hy : v.Height ≤ y) : v.clear y x = some v := by
  obtain ⟨h1, h2, hH, hW, hrc, hrf⟩ := hs
  unfold VT100.clear
  rw [if_pos (by omega)]

theorem clear_oob_x (v : VT100) (hs : WFshape v) (y x : Int)
    (hy : y < v.Height) (hH0 : 0 < v.Height) (hx : v.Width ≤ x) :
    v.clear y x = some v := by
  obtain ⟨h1, h2, hH, hW, hrc, hrf⟩ := hs
  unfold VT100.clear
  rw [if_neg (by omega)]
  cases hC : v.Content with
  | nil => rw [hC] at h1; simp at h1; omega
  | cons r0 rest =>
    have hr0 : r0.length = v.Width.toNat := by
      have h := hrc 0 (by rw [hC]; simp)
      rwa [hC] at h
    dsimp only
    rw [if_pos (by omega)]

theorem WFshape_clear0 (v : VT100) (hs : WFshape v) (a b : Nat) :
    WFshape (clear0 v a b) := by
  obtain ⟨h1, h2, hH, hW, hrc, hrf⟩ := hs
  refine ⟨?_, ?_, hH, hW, ?_, ?_⟩
  · simpa [clear0, length_setCell] using h1
  · simpa [clear0, length_setCell] using h2
  · intro i hi
    rw [show (clear0 v a b).Content = setCell v.Content a b ' ' from rfl,
      rowlen_setCell]
    exact hrc i (by simpa [clear0, length_setCell] using hi)
  · intro i hi
    rw [show (clear0 v a b).Format = setCell v.Format a b Format0 from rfl,
      rowlen_setCell]
    exact hrf i (by simpa [clear0, length_setCell] using hi)

theorem getC_clear0 (v : VT100) (hs : WFshape v) (a b : Nat)
    (ha : a < v.Height.toNat) (hb : b < v.Width.toNat) (i j : Nat) :
    getC (clear0 v a b) i j = if i = a ∧ j = b then ' ' else getC v i j := by
  obtain ⟨h1, h2, hH, hW, hrc, hrf⟩ := hs
  unfold getC clear0
  exact getD_setCell v.Content a b ' ' (Char.ofNat 0) (by omega)
    (by rw [hrc a (by omega)]; omega) i j

theorem getF_clear0 (v : VT100) (hs : WFshape v) (a b : Nat)
    (ha : a < v.Height.toNat) (hb : b < v.Width.toNat) (i j : Nat) :
    getF (clear0 v a b) i j = if i = a ∧ j = b then Format0 else getF v i j := by
  obtain ⟨h1, h2, hH, hW, hrc, hrf⟩ := hs
  unfold getF clear0
  exact getD_setCell v.Format a b Format0 Format0 (by omega)
    (by rw [hrf a (by omega)]; omega) i j

theorem clearColsRange_spec (v : VT100) (y x0 : Int) (n : Nat)
    (hs : WFshape v) (hy : 0 ≤ y) (hx : 0 ≤ x0) :
    ∃ u, v.clearColsRange y x0 n = some u ∧ WFshape u ∧ shell u = shell v ∧
      (∀ i j : Nat, getC u i j =
        if (i : Int) = y ∧ x0 ≤ (j : Int) ∧ (j : Int) < x0 + n ∧
           i < v.Height.toNat ∧ j < v.Width.toNat then ' ' else getC v i j) ∧
      (∀ i j : Nat, getF u i j =
        if (i : Int) = y ∧ x0 ≤ (j : Int) ∧ (j : Int) < x0 + n ∧
           i < v.Height.toNat ∧ j < v.Width.toNat then Format0 else getF v i j) := by
  induction n with
  | zero =>
    refine ⟨v, rfl, hs, rfl, fun i j => ?_, fun i j => ?_⟩
    · rw [if_neg (by omega)]
    · rw [if_neg (by omega)]
  | succ n ih =>
    obtain ⟨u, hu, hsu, hshell, hgc, hgf⟩ := ih
    obtain ⟨hH, hW, _, _, _, _, _, _⟩ := shell_fields hshell
    by_cases hin : y < v.Height ∧ x0 + n < v.Width
    · refine ⟨clear0 u y.toNat (x0 + (n : Int)).toNat, ?_, ?_, ?_, fun i j => ?_, fun i j => ?_⟩
      · simp only [VT100.clearColsRange, hu, Option.bind_eq_bind, Option.some_bind]
        exact clear_in u hsu y (x0 + (n : Int)) hy (by omega) (by omega) (by omega)
      · exact WFshape_clear0 u hsu _ _
      · rw [show shell (clear0 u y.toNat (x0 + (n : Int)).toNat) = shell u from rfl, hshell]
      · rw [getC_clear0 u hsu _ _ (by obtain ⟨a, b, c, d, e, f⟩ := hsu; omega)
          (by obtain ⟨a, b, c, d, e, f⟩ := hsu; omega) i j, hgc i j]
        split_ifs <;> first | rfl | omega
      · rw [getF_clear0 u hsu _ _ (by obtain ⟨a, b, c, d, e, f⟩ := hsu; omega)
          (by obtain ⟨a, b, c, d, e, f⟩ := hsu; omega) i j, hgf i j]
        split_ifs <;> first | rfl | omega
    · have hnoop : u.clear y (x0 + (n : Int)) = some u := by
        rcases not_and_or.mp hin with hcy | hcx
        · exact clear_oob_y u hsu y _ (by omega)
        · by_cases hcy2 : y < v.Height
          · exact clear_oob_x u hsu y _ (by omega) (by omega) (by omega)
          · exact clear_oob_y u hsu y _ (by omega)
      refine ⟨u, ?_, hsu, hshell, fun i j => ?_, fun i j => ?_⟩
      · simp only [VT100.clearColsRange, hu, Option.bind_eq_bind, Option.some_bind]
        exact hnoop
      · rw [hgc i j]
        split_ifs <;> first | rfl | omega
      · rw [hgf i j]
        split_ifs <;> first | rfl | omega

theorem clearRowsRange_spec (v : VT100) (x0 : Int) (nx : Nat) (y0 : Int) (m : Nat)
    (hs : WFshape v) (hy : 0 ≤ y0) (hx : 0 ≤ x0) :
    ∃ u, v.clearRowsRange x0 nx y0 m = some u ∧ WFshape u ∧ shell u = shell v ∧
      (∀ i j : Nat, getC u i j =
        if y0 ≤ (i : Int) ∧ (i : Int) < y0 + m ∧ x0 ≤ (j : Int) ∧ (j : Int) < x0 + nx ∧
           i < v.Height.toNat ∧ j < v.Width.toNat then ' ' else getC v i j) ∧
      (∀ i j : Nat, getF u i j =
        if y0 ≤ (i : Int) ∧ (i : Int) < y0 + m ∧ x0 ≤ (j : Int) ∧ (j : Int) < x0 + nx ∧
           i < v.Height.toNat ∧ j < v.Width.toNat then Format0 else getF v i j) := by
  induction m with
  | zero =>
    refine ⟨v, rfl, hs, rfl, fun i j => ?_, fun i j => ?_⟩
    · rw [if_neg (by omega)]
    · rw [if_neg (by omega)]
  | succ m ih =>
    obtain ⟨u, hu, hsu, hshell, hgc, hgf⟩ := ih
    obtain ⟨hH, hW, _, _, _, _, _, _⟩ := shell_fields hshell
    obtain ⟨w, hw, hsw, hshellw, hgcw, hgfw⟩ :=
      clearColsRange_spec u (y0 + (m : Int)) x0 nx hsu (by omega) hx
    rw [hH] at hgcw hgfw
    rw [hW] at hgcw hgfw
    refine ⟨w, ?_, hsw, by rw [hshellw, hshell], fun i j => ?_, fun i j => ?_⟩
    · simp only [VT100.clearRowsRange, hu, Option.bind_eq_bind, Option.some_bind]
      exact hw
    · rw [hgcw i j, hgc i j]
      split_ifs <;> first | rfl | omega
    · rw [hgfw i j, hgf i j]
      split_ifs <;> first | rfl | omega

theorem eraseRegion_spec (v : VT100) (y1 x1 y2 x2 : Int)
    (hs : WFshape v) (hy1 : 0 ≤ y1) (hx1 : 0 ≤ x1) (hy12 : y1 ≤ y2) (hx12 : x1 ≤ x2) :
    ∃ u, v.eraseRegion y1 x1 y2 x2 = some u ∧ WFshape u ∧ shell u = shell v ∧
      (∀ i j : Nat, getC u i j =
        if y1 ≤ (i : Int) ∧ (i : Int) ≤ y2 ∧ x1 ≤ (j : Int) ∧ (j : Int) ≤ x2 ∧
           i < v.Height.toNat ∧ j < v.Width.toNat then ' ' else getC v i j) ∧
      (∀ i j : Nat, getF u i j =
        if y1 ≤ (i : Int) ∧ (i : Int) ≤ y2 ∧ x1 ≤ (j : Int) ∧ (j : Int) ≤ x2 ∧
           i < v.Height.toNat ∧ j < v.Width.toNat then Format0 else getF v i j) := by
  obtain ⟨u, hu, hsu, hshell, hgc, hgf⟩ :=
    clearRowsRange_spec v x1 (x2 - x1 + 1).toNat y1 (y2 - y1 + 1).toNat hs hy1 hx1
  refine ⟨u, ?_, hsu, hshell, fun i j => ?_, fun i j => ?_⟩
  · rw [← hu]
    unfold VT100.eraseRegion
    rw [if_neg (by omega), if_neg (by omega)]
  · rw [hgc i j]
    split_ifs <;> first | rfl | omega
  · rw [hgf i j]
    split_ifs <;> first | rfl | omega

/-- C7: for a cursor at (y, x) with 0 ≤ y < height (and width ≥ 1), the
erase-in-display escape CSI J clears exactly these cells to the rune ' '
with the default format and leaves every other cell unchanged: mode 0
(also the default for an absent parameter) clears rows y through
height-1, mode 1 clears rows 0 through y, mode 2 clears everything; in
every mode the whole cursor row is included. -/
theorem C7_eraseInDisplay (v : VT100) (hs : WFshape v)
    (hy0 : 0 ≤ v.Cursor.Y) (hy : v.Cursor.Y < v.Height) (hW : 1 ≤ v.Width)
    (ps : List (Option Nat)) (hm : argDef0 ps < 3) :
    ∃ u, display (.escape 'J' ps) v = some (u, false) ∧
      (∀ i j : Nat, i < v.Height.toNat → j < v.Width.toNat →
        (getC u i j = if (argDef0 ps = 0 ∧ v.Cursor.Y ≤ (i : Int)) ∨
            (argDef0 ps = 1 ∧ (i : Int) ≤ v.Cursor.Y) ∨ argDef0 ps = 2
          then ' ' else getC v i j) ∧
        (getF u i j = if (argDef0 ps = 0 ∧ v.Cursor.Y ≤ (i : Int)) ∨
            (argDef0 ps = 1 ∧ (i : Int) ≤ v.Cursor.Y) ∨ argDef0 ps = 2
          then Format0 else getF v i j)) := by
  have hmode : argDef0 ps = 0 ∨ argDef0 ps = 1 ∨ argDef0 ps = 2 := by omega
  have hH1 : 1 ≤ v.Height := by omega
  rcases hmode with hmode | hmode | hmode
  · obtain ⟨u, hu, hsu, hshell, hgc, hgf⟩ :=
      eraseRegion_spec v v.Cursor.Y 0 (v.Height - 1) (v.Width - 1) hs hy0 le_rfl
        (by omega) (by omega)
    refine ⟨u, ?_, fun i j hi hj => ⟨?_, ?_⟩⟩
    · simp only [display, displayEscape, hmode, Char.reduceEq, reduceIte, or_self,
        ite_false, VT100.eraseLines, hu, Option.map_some']
    · rw [hgc i j]; split_ifs <;> first | rfl | omega
    · rw [hgf i j]; split_ifs <;> first | rfl | omega
  · obtain ⟨u, hu, hsu, hshell, hgc, hgf⟩ :=
      eraseRegion_spec v 0 0 v.Cursor.Y (v.Width - 1) hs le_rfl le_rfl hy0 (by omega)
    refine ⟨u, ?_, fun i j hi hj => ⟨?_, ?_⟩⟩
    · simp only [display, displayEscape, hmode, Char.reduceEq, reduceIte, or_self,
        ite_false, VT100.eraseLines, hu, Option.map_some']
    · rw [hgc i j]; split_ifs <;> first | rfl | omega
    · rw [hgf i j]; split_ifs <;> first | rfl | omega
  · obtain ⟨u, hu, hsu, hshell, hgc, hgf⟩ :=
      eraseRegion_spec v 0 0 (v.Height - 1) (v.Width - 1) hs le_rfl le_rfl
        (by omega) (by omega)
    refine ⟨u, ?_, fun i j hi hj => ⟨?_, ?_⟩⟩
    · simp only [display, displayEscape, hmode, Char.reduceEq, reduceIte, or_self,
        ite_false, VT100.eraseLines, hu, Option.map_some']
    · rw [hgc i j]; split_ifs <;> first | rfl | omega
    · rw [hgf i j]; split_ifs <;> first | rfl | omega

/-- C7 witness: a concrete erase-in-display on a 2-by-2 terminal. -/
theorem C7_eraseInDisplay_witness :
    ∃ u, display (.escape 'J' []) (fromLines [['a','b'], ['c','d']]) = some (u, false) := by
  obtain ⟨u, hu, _⟩ := C7_eraseInDisplay (fromLines [['a','b'], ['c','d']])
    (by decide) (by decide) (by decide) (by decide) [] (by decide)
  exact ⟨u, hu⟩

/-- C10: every erase command (CSI J and CSI K in modes 0, 1, 2), applied
with the cursor in bounds, leaves the cursor (position and format),
Height, Width, the saved cursor and maxY unchanged, and modifies only
cells inside the erased rectangle (row y columns x..w-1 / 0..x / 0..w-1
for K, rows y..h-1 / 0..y / 0..h-1 with all columns for J); every cell
outside it keeps its rune and its format. -/
theorem C10_erase_frame (v : VT100) (hs : WFshape v)
    (hy0 : 0 ≤ v.Cursor.Y) (hy : v.Cursor.Y < v.Height)
    (hx0 : 0 ≤ v.Cursor.X) (hx : v.Cursor.X < v.Width)
    (f : Char) (hf : f = 'J' ∨ f = 'K') (ps : List (Option Nat)) (hm : argDef0 ps < 3) :
    ∃ u, display (.escape f ps) v = some (u, false) ∧
      u.Cursor = v.Cursor ∧ u.Height = v.Height ∧ u.Width = v.Width ∧
      u.savedCursor = v.savedCursor ∧ u.maxY = v.maxY ∧
      (∀ i j : Nat, i < v.Height.toNat → j < v.Width.toNat →
        ¬ ((f = 'K' ∧ (i : Int) = v.Cursor.Y ∧
              (argDef0 ps = 0 → v.Cursor.X ≤ (j : Int)) ∧
              (argDef0 ps = 1 → (j : Int) ≤ v.Cursor.X)) ∨
           (f = 'J' ∧ (argDef0 ps = 0 → v.Cursor.Y ≤ (i : Int)) ∧
              (argDef0 ps = 1 → (i : Int) ≤ v.Cursor.Y))) →
        getC u i j = getC v i j ∧ getF u i j = getF v i j) := by
  have hmode : argDef0 ps = 0 ∨ argDef0 ps = 1 ∨ argDef0 ps = 2 := by omega
  rcases hf with hf | hf <;> subst hf
  · -- CSI J
    obtain ⟨u, hu, _, hshell, hgc, hgf⟩ :
        ∃ u, display (.escape 'J' ps) v = some (u, false) ∧ WFshape u ∧ shell u = shell v ∧
          (∀ i j : Nat, getC u i j =
            if (argDef0 ps = 0 → v.Cursor.Y ≤ (i : Int)) ∧
               (argDef0 ps = 1 → (i : Int) ≤ v.Cursor.Y) ∧
               i < v.Height.toNat ∧ j < v.Width.toNat then ' ' else getC v i j) ∧
          (∀ i j : Nat, getF u i j =
            if (argDef0 ps = 0 → v.Cursor.Y ≤ (i : Int)) ∧
               (argDef0 ps = 1 → (i : Int) ≤ v.Cursor.Y) ∧
               i < v.Height.toNat ∧ j < v.Width.toNat then Format0 else getF v i j) := by
      rcases hmode with hmode | hmode | hmode
      · obtain ⟨u, hu, hsu, hshell, hgc, hgf⟩ :=
          eraseRegion_spec v v.Cursor.Y 0 (v.Height - 1) (v.Width - 1) hs hy0 le_rfl
            (by omega) (by omega)
        refine ⟨u, ?_, hsu, hshell, fun i j => ?_, fun i j => ?_⟩
        · simp only [display, displayEscape, hmode, Char.reduceEq, reduceIte, or_self,
            ite_false, VT100.eraseLines, hu, Option.map_some']
        · rw [hgc i j]; split_ifs <;> first | rfl | omega
        · rw [hgf i j]; split_ifs <;> first | rfl | omega
      · obtain ⟨u, hu, hsu, hshell, hgc, hgf⟩ :=
          eraseRegion_spec v 0 0 v.Cursor.Y (v.Width - 1) hs le_rfl le_rfl hy0 (by omega)
        refine ⟨u, ?_, hsu, hshell, fun i j => ?_, fun i j => ?_⟩
        · simp only [display, displayEscape, hmode, Char.reduceEq, reduceIte, or_self,
            ite_false, VT100.eraseLines, hu, Option.map_some']
        · rw [hgc i j]; split_ifs <;> first | rfl | omega
        · rw [hgf i j]; split_ifs <;> first | rfl | omega
      · obtain ⟨u, hu, hsu, hshell, hgc, hgf⟩ :=
          eraseRegion_spec v 0 0 (v.Height - 1) (v.Width - 1) hs le_rfl le_rfl
            (by omega) (by omega)
        refine ⟨u, ?_, hsu, hshell, fun i j => ?_, fun i j => ?_⟩
        · simp only [display, displayEscape, hmode, Char.reduceEq, reduceIte, or_self,
            ite_false, VT100.eraseLines, hu, Option.map_some']
        · rw [hgc i j]; split_ifs <;> first | rfl | omega
        · rw [hgf i j]; split_ifs <;> first | rfl | omega
    obtain ⟨hH, hW, hCur, hSav, hMax, _, _, _⟩ := shell_fields hshell
    refine ⟨u, hu, hCur, hH, hW, hSav, hMax, fun i j hi hj hnot => ?_⟩
    simp only [Char.reduceEq, true_and, false_and, or_false, false_or, not_and, not_or] at hnot
    constructor
    · rw [hgc i j]; rw [if_neg (by tauto)]
    · rw [hgf i j]; rw [if_neg (by tauto)]
  · -- CSI K
    obtain ⟨u, hu, _, hshell, hgc, hgf⟩ :
        ∃ u, display (.escape 'K' ps) v = some (u, false) ∧ WFshape u ∧ shell u = shell v ∧
          (∀ i j : Nat, getC u i j =
            if (i : Int) = v.Cursor.Y ∧
               (argDef0 ps = 0 → v.Cursor.X ≤ (j : Int)) ∧
               (argDef0 ps = 1 → (j : Int) ≤ v.Cursor.X) ∧
               i < v.Height.toNat ∧ j < v.Width.toNat then ' ' else getC v i j) ∧
          (∀ i j : Nat, getF u i j =
            if (i : Int) = v.Cursor.Y ∧
               (argDef0 ps = 0 → v.Cursor.X ≤ (j : Int)) ∧
               (argDef0 ps = 1 → (j : Int) ≤ v.Cursor.X) ∧
               i < v.Height.toNat ∧ j < v.Width.toNat then Format0 else getF v i j) := by
      rcases hmode with hmode | hmode | hmode
      · obtain ⟨u, hu, hsu, hshell, hgc, hgf⟩ :=
          eraseRegion_spec v v.Cursor.Y v.Cursor.X v.Cursor.Y (v.Width - 1) hs hy0 hx0
            le_rfl (by omega)
        refine ⟨u, ?_, hsu, hshell, fun i j => ?_, fun i j => ?_⟩
        · simp only [display, displayEscape, hmode, Char.reduceEq, reduceIte, or_self,
            ite_false, VT100.eraseColumns, hu, Option.map_some']
        · rw [hgc i j]; split_ifs <;> first | rfl | omega
        · rw [hgf i j]; split_ifs <;> first | rfl | omega
      · obtain ⟨u, hu, hsu, hshell, hgc, hgf⟩ :=
          eraseRegion_spec v v.Cursor.Y 0 v.Cursor.Y v.Cursor.X hs hy0 le_rfl le_rfl hx0
        refine ⟨u, ?_, hsu, hshell, fun i j => ?_, fun i j => ?_⟩
        · simp only [display, displayEscape, hmode, Char.reduceEq, reduceIte, or_self,
            ite_false, VT100.eraseColumns, hu, Option.map_some']
        · rw [hgc i j]; split_ifs <;> first | rfl | omega
        · rw [hgf i j]; split_ifs <;> first | rfl | omega
      · obtain ⟨u, hu, hsu, hshell, hgc, hgf⟩ :=
          eraseRegion_spec v v.Cursor.Y 0 v.Cursor.Y (v.Width - 1) hs hy0 le_rfl
            le_rfl (by omega)
        refine ⟨u, ?_, hsu, hshell, fun i j => ?_, fun i j => ?_⟩
        · simp only [display, displayEscape, hmode, Char.reduceEq, reduceIte, or_self,
            ite_false, VT100.eraseColumns, hu, Option.map_some']
        · rw [hgc i j]; split_ifs <;> first | rfl | omega
        · rw [hgf i j]; split_ifs <;> first | rfl | omega
    obtain ⟨hH, hW, hCur, hSav, hMax, _, _, _⟩ := shell_fields hshell
    refine ⟨u, hu, hCur, hH, hW, hSav, hMax, fun i j hi hj hnot => ?_⟩
    simp only [Char.reduceEq, true_and, false_and, or_false, false_or, not_and, not_or] at hnot
    constructor
    · rw [hgc i j]; rw [if_neg (by tauto)]
    · rw [hgf i j]; rw [if_neg (by tauto)]

/-- C10 witness: a concrete erase-in-line on a 2-by-2 terminal. -/
theorem C10_erase_frame_witness :
    ∃ u, display (.escape 'K' [some 1]) (fromLines [['a','b'], ['c','d']]) = some (u, false) := by
  obtain ⟨u, hu, _⟩ := C10_erase_frame (fromLines [['a','b'], ['c','d']])
    (by decide) (by decide) (by decide) (by decide) (by decide) 'K' (Or.inr rfl)
    [some 1] (by decide)
  exact ⟨u, hu⟩

/-- C1 is violated by the code: put records maxY from the cursor BEFORE
scrollOne normalizes it, so on a 1-by-1 terminal two printable runes
leave maxY = 1 = Height, i.e. UsedHeight = 2 > Height = 1.  This theorem
evaluates the code at that failing input (NewVT100(1,1), then Process of
the rune 'a' twice). -/
theorem C1_used_height_exceeds_height :
    ((NewVT100 1 1).bind fun t0 => (display (.putRune 'a') t0).bind fun p1 =>
      (display (.putRune 'a') p1.1).map fun p2 => (p2.1.UsedHeight, p2.1.Height)) =
    some (2, 1) := by decide

/-- C3 is violated by the code at the boundary maxY = h: resize clamps
maxY only when h < maxY (vt100.go line 210), not when maxY ≥ h as the
claim states, so shrinking a terminal with maxY = 1 to h = 1 keeps
maxY = 1 instead of setting it to h - 1 = 0.  This theorem evaluates the
code at that failing input (NewVT100(3,1), write two runes so that
maxY = 1, then resize(1,1)): rows are truncated to h = 1 but maxY stays
1. -/
theorem C3_resize_maxY_off_by_one :
    ((NewVT100 3 1).bind fun t0 => (display (.putRune 'a') t0).bind fun p1 =>
      (display (.putRune 'b') p1.1).bind fun p2 =>
      (p2.1.resize 1 1).map fun t => (t.maxY, t.Height, t.Content.length)) =
    some (1, 1, 1) := by decide

/-- C4 counterexample: clear with a negative coordinate is NOT a no-op;
the Go code only guards the upper bounds (y >= len(v.Content),
x >= len(v.Content[0])) and panics on the negative index (none in this
model), exactly as the comment in eraseRegion announces. -/
theorem C4_counterexample :
    (fromLines [[' ', ' '], [' ', ' ']]).clear (-1) 0 = none := by decide

/-- C4 amended: clear(y, x) sets the cell at (y, x) to the rune ' ' with
the default format when 0 ≤ y < height and 0 ≤ x < width; a coordinate
that is too large (y ≥ height, or x ≥ width with y < height on a
nonempty grid) leaves the terminal unchanged; a NEGATIVE in-range-above
coordinate is not checked and panics; consequently eraseRegion is total
for every rectangle with non-negative corners, ignoring too-large
coordinates per cell. -/
theorem C4_clear_bounds (v : VT100) (hs : WFshape v) (y x : Int) :
    (0 ≤ y → y < v.Height → 0 ≤ x → x < v.Width →
      v.clear y x = some (clear0 v y.toNat x.toNat)) ∧
    (v.Height ≤ y → v.clear y x = some v) ∧
    (y < v.Height → 0 < v.Height → v.Width ≤ x → v.clear y x = some v) ∧
    ((y < 0 ∨ x < 0) → y < v.Height → x < v.Width → 0 < v.Height →
      v.clear y x = none) ∧
    (∀ y1 x1 y2 x2 : Int, 0 ≤ y1 → 0 ≤ x1 → 0 ≤ y2 → 0 ≤ x2 →
      ∃ u, v.eraseRegion y1 x1 y2 x2 = some u) := by
  refine ⟨fun hy0 hy hx0 hx => clear_in v hs y x hy0 hy hx0 hx,
    fun hy => clear_oob_y v hs y x hy,
    fun hy hH0 hx => clear_oob_x v hs y x hy hH0 hx,
    fun hneg hy hx hH0 => ?_,
    fun y1 x1 y2 x2 hy1 hx1 hy2 hx2 => ?_⟩
  · obtain ⟨h1, h2, hH, hW, hrc, hrf⟩ := hs
    unfold VT100.clear
    rw [if_neg (by omega)]
    cases hC : v.Content with
    | nil => rfl
    | cons r0 rest =>
      have hr0 : r0.length = v.Width.toNat := by
        have h := hrc 0 (by rw [hC]; simp)
        rwa [hC] at h
      dsimp only
      rw [if_neg (by omega), if_pos hneg]
  · unfold VT100.eraseRegion
    by_cases hysw : y1 > y2 <;> by_cases hxsw : x1 > x2
    · rw [if_pos hysw, if_pos hxsw]
      obtain ⟨u, hu, _⟩ := clearRowsRange_spec v x2 (x1 - x2 + 1).toNat y2
        (y1 - y2 + 1).toNat hs hy2 hx2
      exact ⟨u, hu⟩
    · rw [if_pos hysw, if_neg hxsw]
      obtain ⟨u, hu, _⟩ := clearRowsRange_spec v x1 (x2 - x1 + 1).toNat y2
        (y1 - y2 + 1).toNat hs hy2 hx1
      exact ⟨u, hu⟩
    · rw [if_neg hysw, if_pos hxsw]
      obtain ⟨u, hu, _⟩ := clearRowsRange_spec v x2 (x1 - x2 + 1).toNat y1
        (y2 - y1 + 1).toNat hs hy1 hx2
      exact ⟨u, hu⟩
    · rw [if_neg hysw, if_neg hxsw]
      obtain ⟨u, hu, _⟩ := clearRowsRange_spec v x1 (x2 - x1 + 1).toNat y1
        (y2 - y1 + 1).toNat hs hy1 hx1
      exact ⟨u, hu⟩

/-- C4 witness: the amended bounds behaviour of clear evaluated on a
concrete 2-by-2 terminal. -/
theorem C4_clear_bounds_witness :
    (fromLines [[' ', ' '], [' ', ' ']]).clear 5 0 = some (fromLines [[' ', ' '], [' ', ' ']]) :=
  (C4_clear_bounds (fromLines [[' ', ' '], [' ', ' ']]) (by decide) 5 0).2.1 (by decide)

set_option maxHeartbeats 1000000 in
/-- C8: SGR parameter 0 replaces the cursor format with the zero format
plus Reset = true; an empty parameter list (CSI m) behaves identically;
every non-zero SGR parameter leaves the Reset flag untouched, so
reset-then-attribute sequences such as 0;1 or 0;4 or 0;46 store formats
with reset = true together with the new attribute. -/
theorem C8_sgr_reset (v : VT100) (f : Format) :
    display (.escape 'm' [some 0]) v =
      some ({ v with Cursor := { v.Cursor with F := { Format0 with Reset := true } } }, false) ∧
    display (.escape 'm' []) v = display (.escape 'm' [some 0]) v ∧
    (∀ p : Nat, p ≠ 0 → (updateFormat f p).Reset = f.Reset) ∧
    List.foldl updateFormat f [0, 1] = { Format0 with Reset := true, Intensity := .Bold } ∧
    List.foldl updateFormat f [0, 4] = { Format0 with Reset := true, Underline := true } ∧
    List.foldl updateFormat f [0, 46] = { Format0 with Reset := true, Bg := .ansi 6 } := by
  refine ⟨rfl, rfl, fun p hp => ?_, rfl, rfl, rfl⟩
  unfold updateFormat
  rw [if_neg hp]
  simp only [apply_ite Format.Reset, ite_self]

/-- C8 witness: applying a non-zero SGR parameter after a reset keeps the
Reset flag. -/
theorem C8_sgr_reset_witness :
    (updateFormat { Format0 with Reset := true } 4).Reset =
      ({ Format0 with Reset := true } : Format).Reset :=
  (C8_sgr_reset (fromLines [['.']]) { Format0 with Reset := true }).2.2.1 4 (by decide)

/-- The freshly allocated grid of NewVT100 before its clear loop: Go's
make-initialised rows of zero runes and zero formats. -/
def newGrid (y x : Int) : VT100 :=
  { Height := y, Width := x,
    Content := List.replicate y.toNat (List.replicate x.toNat (Char.ofNat 0)),
    Format := List.replicate y.toNat (List.replicate x.toNat Format0),
    Cursor := { Y := 0, X := 0, F := Format0 },
    AutoResizeY := false, AutoResizeX := false,
    savedCursor := { Y := 0, X := 0, F := Format0 },
    unparsed := [], maxY := -1 }

theorem WFshape_newGrid (y x : Int) (hy : 0 ≤ y) (hx : 0 ≤ x) :
    WFshape (newGrid y x) := by
  refine ⟨by simp [newGrid], by simp [newGrid], hy, hx, ?_, ?_⟩
  · intro i hi
    simp only [newGrid, List.length_replicate] at hi ⊢
    rw [List.getD_eq_getElem?_getD, List.getElem?_replicate, if_pos hi]
    simp
  · intro i hi
    simp only [newGrid, List.length_replicate] at hi ⊢
    rw [List.getD_eq_getElem?_getD, List.getElem?_replicate, if_pos hi]
    simp

/-- C9: NewVT100(y, x) panics (none in this model) exactly when y ≤ 0 or
x ≤ 0; for strictly positive dimensions it returns a terminal of the
requested shape in which every one of the y-by-x cells holds the rune ' '
with the default Format, and UsedHeight is 0 (maxY is -1). -/
theorem C9_new (y x : Int) :
    (NewVT100 y x = none ↔ y ≤ 0 ∨ x ≤ 0) ∧
    (0 < y → 0 < x → ∃ t, NewVT100 y x = some t ∧ t.Height = y ∧ t.Width = x ∧
      WFshape t ∧
      (∀ i j : Nat, i < y.toNat → j < x.toNat → getC t i j = ' ' ∧ getF t i j = Format0) ∧
      t.UsedHeight = 0 ∧ t.maxY = -1) := by
  by_cases hneg : y ≤ 0 ∨ x ≤ 0
  · refine ⟨⟨fun _ => hneg, fun _ => by unfold NewVT100; rw [if_pos hneg]⟩,
      fun hy hx => absurd hneg (by omega)⟩
  · have hy : 0 < y := by omega
    have hx : 0 < x := by omega
    obtain ⟨u, hu, hsu, hshell, hgc, hgf⟩ :=
      clearRowsRange_spec (newGrid y x) 0 x.toNat 0 y.toNat
        (WFshape_newGrid y x (by omega) (by omega)) le_rfl le_rfl
    obtain ⟨hH, hW, hCur, hSav, hMax, _, _, _⟩ := shell_fields hshell
    dsimp only [newGrid] at hgc hgf hH hW hMax
    have hN : NewVT100 y x = some u := by
      unfold NewVT100
      rw [if_neg hneg]
      exact hu
    refine ⟨⟨fun h => ?_, fun h => absurd h (by omega)⟩,
      fun _ _ => ⟨u, hN, hH, hW, hsu, fun i j hi hj => ⟨?_, ?_⟩, ?_, hMax⟩⟩
    · rw [hN] at h
      cases h
    · rw [hgc i j, if_pos (by omega)]
    · rw [hgf i j, if_pos (by omega)]
    · unfold VT100.UsedHeight
      rw [hMax]
      decide

/-- C9 witness: NewVT100 2 3 exists with all-blank cells and zero used
height, and NewVT100 0 3 panics. -/
theorem C9_new_witness :
    (∃ t, NewVT100 2 3 = some t ∧ t.UsedHeight = 0 ∧ t.maxY = -1) ∧ NewVT100 0 3 = none := by
  constructor
  · obtain ⟨t, h1, _, _, _, _, h6, h7⟩ := (C9_new 2 3).2 (by decide) (by decide)
    exact ⟨t, h1, h6, h7⟩
  · exact (C9_new 0 3).1.mpr (by decide)

/-- Both grids have the same outer length and pointwise the same row
lengths in two states (the grid dimensions agree). -/
def dimsEq (u v : VT100) : Prop :=
  u.Content.length = v.Content.length ∧ u.Format.length = v.Format.length ∧
  (∀ i, (u.Content.getD i []).length = (v.Content.getD i []).length) ∧
  (∀ i, (u.Format.getD i []).length = (v.Format.getD i []).length)

theorem dimsEq_refl (v : VT100) : dimsEq v v :=
  ⟨rfl, rfl, fun _ => rfl, fun _ => rfl⟩

theorem dimsEq_trans {a b c : VT100} (h1 : dimsEq a b) (h2 : dimsEq b c) : dimsEq a c :=
  ⟨h1.1.trans h2.1, h1.2.1.trans h2.2.1,
   fun i => (h1.2.2.1 i).trans (h2.2.2.1 i),
   fun i => (h1.2.2.2 i).trans (h2.2.2.2 i)⟩

theorem WFshape_of_dimsEq {u v : VT100} (hd : dimsEq u v) (hsh : shell u = shell v)
    (hs : WFshape v) : WFshape u := by
  obtain ⟨h1, h2, hH, hW, hrc, hrf⟩ := hs
  obtain ⟨hHe, hWe, _, _, _, _, _, _⟩ := shell_fields hsh
  obtain ⟨d1, d2, d3, d4⟩ := hd
  refine ⟨by rw [d1, hHe, h1], by rw [d2, hHe, h2], by omega, by omega, ?_, ?_⟩
  · intro i hi
    rw [d3 i, hWe]
    exact hrc i (by omega)
  · intro i hi
    rw [d4 i, hWe]
    exact hrf i (by omega)

theorem clearColsRange_some (v : VT100) (y x0 : Int) (n : Nat) :
    ∀ u, v.clearColsRange y x0 n = some u → shell u = shell v ∧ dimsEq u v := by
  induction n with
  | zero =>
    intro u h
    cases h
    exact ⟨rfl, dimsEq_refl v⟩
  | succ n ih =>
    intro u h
    simp only [VT100.clearColsRange, Option.bind_eq_bind] at h
    obtain ⟨v1, h1, h2⟩ := Option.bind_eq_some.mp h
    obtain ⟨s1, d1⟩ := ih v1 h1
    obtain ⟨s2, l1, l2, r1, r2⟩ := clear_some v1 u y _ h2
    exact ⟨s2.trans s1, dimsEq_trans ⟨l1, l2, r1, r2⟩ d1⟩

theorem clearRowsRange_some (v : VT100) (x0 : Int) (nx : Nat) (y0 : Int) (m : Nat) :
    ∀ u, v.clearRowsRange x0 nx y0 m = some u → shell u = shell v ∧ dimsEq u v := by
  induction m with
  | zero =>
    intro u h
    cases h
    exact ⟨rfl, dimsEq_refl v⟩
  | succ m ih =>
    intro u h
    simp only [VT100.clearRowsRange, Option.bind_eq_bind] at h
    obtain ⟨v1, h1, h2⟩ := Option.bind_eq_some.mp h
    obtain ⟨s1, d1⟩ := ih v1 h1
    obtain ⟨s2, d2⟩ := clearColsRange_some v1 _ x0 nx u h2
    exact ⟨s2.trans s1, dimsEq_trans d2 d1⟩

theorem eraseRegion_some (v u : VT100) (y1 x1 y2 x2 : Int)
    (h : v.eraseRegion y1 x1 y2 x2 = some u) : shell u = shell v ∧ dimsEq u v := by
  unfold VT100.eraseRegion at h
  exact clearRowsRange_some v _ _ _ _ u h

theorem eraseColumns_some (v u : VT100) (d : eraseDirection)
    (h : v.eraseColumns d = some u) : shell u = shell v ∧ dimsEq u v := by
  cases d <;> exact eraseRegion_some v u _ _ _ _ h

theorem eraseLines_some (v u : VT100) (d : eraseDirection)
    (h : v.eraseLines d = some u) : shell u = shell v ∧ dimsEq u v := by
  cases d <;> exact eraseRegion_some v u _ _ _ _ h

theorem rows_len_iff (g : List (List α)) (w : Nat) :
    (∀ i, i < g.length → (g.getD i []).length = w) ↔ (∀ r ∈ g, r.length = w) := by
  constructor
  · intro h r hr
    obtain ⟨i, hi, rfl⟩ := List.mem_iff_getElem.mp hr
    have h2 := h i hi
    rw [List.getD_eq_getElem?_getD, List.getElem?_eq_getElem hi] at h2
    simpa using h2
  · intro h i hi
    rw [List.getD_eq_getElem?_getD, List.getElem?_eq_getElem hi]
    simpa using h _ (List.getElem_mem hi)

theorem getLastD_length {g : List (List α)} {a r0 : List α} {w : Nat}
    (hall : ∀ r ∈ r0 :: g, r.length = w) (ha : a ∈ r0 :: g) (hg : g ⊆ r0 :: g) :
    (g.getLastD a).length = w := by
  cases g with
  | nil => exact hall a ha
  | cons b bs =>
    rw [List.getLastD_eq_getLast? a (b :: bs),
      List.getLast?_eq_getLast (b :: bs) (by simp)]
    exact hall _ (hg (List.getLast_mem (by simp)))

theorem scrollOne_some (v u : VT100) (h : v.scrollOne = some u) :
    u.Height = v.Height ∧ u.Width = v.Width ∧ u.Cursor.X = v.Cursor.X ∧
    u.Cursor.F = v.Cursor.F ∧ u.Cursor.Y = v.Height - 1 ∧
    u.savedCursor = v.savedCursor ∧ u.AutoResizeY = v.AutoResizeY ∧
    u.AutoResizeX = v.AutoResizeX ∧ u.unparsed = v.unparsed ∧ u.maxY = v.maxY ∧
    (WFshape v → WFshape u) := by
  unfold VT100.scrollOne at h
  split at h
  case h_2 => cases h
  case h_1 c0 crest f0 frest hC hF =>
    split at h
    case isFalse => cases h
    case isTrue hguard =>
      cases h
      obtain ⟨hg1, hg2, hg3, hg4⟩ := hguard
      refine ⟨rfl, rfl, rfl, rfl, rfl, rfl, rfl, rfl, rfl, rfl, fun hs => ?_⟩
      unfold WFshape
      dsimp only
      obtain ⟨h1, h2, hH, hW, hrc, hrf⟩ := hs
      have hrc2 := (rows_len_iff v.Content v.Width.toNat).mp hrc
      have hrf2 := (rows_len_iff v.Format v.Width.toNat).mp hrf
      rw [hC] at hrc2 h1
      rw [hF] at hrf2 h2
      simp only [List.length_cons] at h1 h2
      have hc0 : c0.length = v.Width.toNat := hrc2 c0 (by simp)
      have hf0 : f0.length = v.Width.toNat := hrf2 f0 (by simp)
      refine ⟨?_, ?_, hH, hW, ?_, ?_⟩
      · simp only [List.length_set, List.length_append, List.length_singleton]
        omega
      · simp only [List.length_set, List.length_append, List.length_singleton]
        omega
      · rw [rows_len_iff]
        intro r hr
        rcases List.mem_or_eq_of_mem_set hr with hr | rfl
        · rcases List.mem_append.mp hr with hr | hr
          · exact hrc2 r (List.mem_cons_of_mem _ hr)
          · rw [List.mem_singleton.mp hr]
            exact getLastD_length hrc2 (by simp) (fun a ha => List.mem_cons_of_mem _ ha)
        · rw [List.length_replicate]
          exact hc0
      · rw [rows_len_iff]
        intro r hr
        rcases List.mem_or_eq_of_mem_set hr with hr | rfl
        · rcases List.mem_append.mp hr with hr | hr
          · exact hrf2 r (List.mem_cons_of_mem _ hr)
          · rw [List.mem_singleton.mp hr]
            exact getLastD_length hrf2 (by simp) (fun a ha => List.mem_cons_of_mem _ ha)
        · rw [List.length_append, List.length_replicate, List.length_drop]
          omega

theorem rows_len_of_ptwise {α} {g1 g2 : List (List α)} {w : Nat}
    (hlen : g1.length = g2.length)
    (hpt : ∀ i, (g1.getD i []).length = (g2.getD i []).length)
    (h : ∀ r ∈ g2, r.length = w) : ∀ r ∈ g1, r.length = w := by
  rw [← rows_len_iff] at h ⊢
  intro i hi
  rw [hpt i]
  exact h i (by omega)

theorem growRows_some (v : VT100) (base w : Int) (n : Nat) :
    ∀ u, v.growRows base w n = some u → shell u = shell v ∧
      u.Content.length = v.Content.length + n ∧
      u.Format.length = v.Format.length + n ∧
      ((∀ r ∈ v.Content, r.length = w.toNat) → ∀ r ∈ u.Content, r.length = w.toNat) ∧
      ((∀ r ∈ v.Format, r.length = w.toNat) → ∀ r ∈ u.Format, r.length = w.toNat) := by
  induction n with
  | zero =>
    intro u h
    cases h
    exact ⟨rfl, rfl, rfl, fun h => h, fun h => h⟩
  | succ n ih =>
    intro u h
    simp only [VT100.growRows, Option.bind_eq_bind] at h
    obtain ⟨v1, h1, h2⟩ := Option.bind_eq_some.mp h
    obtain ⟨s1, l1, l2, r1, r2⟩ := ih v1 h1
    split at h2
    · cases h2
    · obtain ⟨s2, d2⟩ := clearColsRange_some _ _ _ _ u h2
      obtain ⟨dl1, dl2, dp1, dp2⟩ := d2
      refine ⟨s2.trans s1, ?_, ?_, fun hc => ?_, fun hf => ?_⟩
      · rw [dl1]
        simp only [List.length_append, List.length_singleton]
        omega
      · rw [dl2]
        simp only [List.length_append, List.length_singleton]
        omega
      · refine rows_len_of_ptwise ?_ dp1 ?_
        · rw [dl1]
        · intro r hr
          rcases List.mem_append.mp hr with hr | hr
          · exact r1 hc r hr
          · rw [List.mem_singleton.mp hr, List.length_replicate]
      · refine rows_len_of_ptwise ?_ dp2 ?_
        · rw [dl2]
        · intro r hr
          rcases List.mem_append.mp hr with hr | hr
          · exact r2 hf r hr
          · rw [List.mem_singleton.mp hr, List.length_replicate]

theorem growWAux_some (v : VT100) (W w : Int) (k : Nat) :
    ∀ u, v.growWAux W w k = some u → shell u = shell v ∧
      u.Content.length = v.Content.length ∧ u.Format.length = v.Format.length ∧
      (∀ i, i < k → i < u.Content.length → (u.Content.getD i []).length = w.toNat) ∧
      (∀ i, k ≤ i → (u.Content.getD i []).length = (v.Content.getD i []).length) ∧
      (∀ i, i < k → i < u.Format.length → (u.Format.getD i []).length = w.toNat) ∧
      (∀ i, k ≤ i → (u.Format.getD i []).length = (v.Format.getD i []).length) := by
  induction k with
  | zero =>
    intro u h
    cases h
    exact ⟨rfl, rfl, rfl, fun i hi => by omega, fun i _ => rfl,
      fun i hi => by omega, fun i _ => rfl⟩
  | succ k ih =>
    intro u h
    simp only [VT100.growWAux, Option.bind_eq_bind] at h
    obtain ⟨v1, h1, h2⟩ := Option.bind_eq_some.mp h
    obtain ⟨s1, l1, l2, ra1, rb1, ra2, rb2⟩ := ih v1 h1
    split at h2
    · cases h2
    next hguard =>
      push_neg at hguard
      obtain ⟨s2, d2⟩ := clearColsRange_some _ _ _ _ u h2
      obtain ⟨dl1, dl2, dp1, dp2⟩ := d2
      have hext : (VT100.extendRowW v1 k w).Content = v1.Content.set k
          ((v1.Content.getD k [] ++ List.replicate w.toNat (Char.ofNat 0)).take w.toNat) := rfl
      have hextf : (VT100.extendRowW v1 k w).Format = v1.Format.set k
          ((v1.Format.getD k [] ++ List.replicate w.toNat Format0).take w.toNat) := rfl
      have hrowlen : ∀ (r0 : List Char),
          ((r0 ++ List.replicate w.toNat (Char.ofNat 0)).take w.toNat).length = w.toNat := by
        intro r0
        simp only [List.length_take, List.length_append, List.length_replicate]
        omega
      have hrowlenf : ∀ (r0 : List Format),
          ((r0 ++ List.replicate w.toNat Format0).take w.toNat).length = w.toNat := by
        intro r0
        simp only [List.length_take, List.length_append, List.length_replicate]
        omega
      have hs2 : shell (VT100.extendRowW v1 k w) = shell v1 := rfl
      have hl1 : (VT100.extendRowW v1 k w).Content.length = v1.Content.length := by
        rw [hext, List.length_set]
      have hl2 : (VT100.extendRowW v1 k w).Format.length = v1.Format.length := by
        rw [hextf, List.length_set]
      refine ⟨s2.trans (hs2.trans s1), by rw [dl1, hl1, l1], by rw [dl2, hl2, l2],
        fun i hi hiu => ?_, fun i hi => ?_, fun i hi hiu => ?_, fun i hi => ?_⟩
      · rw [dp1 i, hext]
        by_cases hik : i = k
        · subst hik
          rw [List.getD_eq_getElem?_getD, List.getElem?_set_eq_of_lt _ (by
              rw [dl1, hl1] at hiu; exact hiu)]
          simpa using hrowlen _
        · rw [List.getD_eq_getElem?_getD, List.getElem?_set_ne (by omega),
            ← List.getD_eq_getElem?_getD]
          exact ra1 i (by omega) (by rw [dl1, hl1] at hiu; omega)
      · rw [dp1 i, hext, List.getD_eq_getElem?_getD, List.getElem?_set_ne (by omega),
          ← List.getD_eq_getElem?_getD]
        exact rb1 i (by omega)
      · rw [dp2 i, hextf]
        by_cases hik : i = k
        · subst hik
          rw [List.getD_eq_getElem?_getD, List.getElem?_set_eq_of_lt _ (by
              rw [dl2, hl2] at hiu; exact hiu)]
          simpa using hrowlenf _
        · rw [List.getD_eq_getElem?_getD, List.getElem?_set_ne (by omega),
            ← List.getD_eq_getElem?_getD]
          exact ra2 i (by omega) (by rw [dl2, hl2] at hiu; omega)
      · rw [dp2 i, hextf, List.getD_eq_getElem?_getD, List.getElem?_set_ne (by omega),
          ← List.getD_eq_getElem?_getD]
        exact rb2 i (by omega)


theorem resizeHeightStep_some (v v1 : VT100) (h : Int)
    (hv1 : v.resizeHeightStep h = some v1) (hs : WFshape v) :
    WFshape v1 ∧ v1.Height = h ∧ v1.Width = v.Width ∧
    v1.savedCursor = v.savedCursor ∧ v1.AutoResizeY = v.AutoResizeY ∧
    v1.AutoResizeX = v.AutoResizeX ∧ v1.unparsed = v.unparsed ∧
    v1.Cursor = v.Cursor ∧ v1.maxY = v.maxY := by
  obtain ⟨h1, h2, hH, hW, hrc, hrf⟩ := hs
  have hrc2 := (rows_len_iff v.Content v.Width.toNat).mp hrc
  have hrf2 := (rows_len_iff v.Format v.Width.toNat).mp hrf
  unfold VT100.resizeHeightStep at hv1
  simp only [Option.bind_eq_bind, Option.pure_def] at hv1
  by_cases hgt : h > v.Height
  · rw [if_pos hgt] at hv1
    obtain ⟨g, hg, hpure⟩ := Option.bind_eq_some.mp hv1
    cases hpure
    obtain ⟨sg, gl1, gl2, gr1, gr2⟩ := growRows_some v v.Height v.Width _ g hg
    obtain ⟨gH, gW, gCur, gSav, gMax, gARY, gARX, gUnp⟩ := shell_fields sg
    refine ⟨⟨?_, ?_, by dsimp only; omega, by dsimp only; omega, ?_, ?_⟩,
      rfl, by dsimp only; exact gW, by dsimp only; exact gSav,
      by dsimp only; exact gARY, by dsimp only; exact gARX,
      by dsimp only; exact gUnp, by dsimp only; exact gCur,
      by dsimp only; exact gMax⟩
    · dsimp only
      rw [gl1, h1]
      omega
    · dsimp only
      rw [gl2, h2]
      omega
    · dsimp only
      rw [rows_len_iff, gW]
      exact gr1 hrc2
    · dsimp only
      rw [rows_len_iff, gW]
      exact gr2 hrf2
  · rw [if_neg hgt] at hv1
    by_cases hlt : h < v.Height
    · rw [if_pos hlt] at hv1
      by_cases hgd : h < 0 ∨ v.Content.length < h.toNat ∨ v.Format.length < h.toNat
      · rw [if_pos hgd] at hv1
        cases hv1
      · rw [if_neg hgd] at hv1
        push_neg at hgd
        cases hv1
        refine ⟨⟨?_, ?_, by dsimp only; omega, by dsimp only; omega, ?_, ?_⟩,
          rfl, rfl, rfl, rfl, rfl, rfl, rfl, rfl⟩
        · dsimp only
          rw [List.length_take]
          omega
        · dsimp only
          rw [List.length_take]
          omega
        · dsimp only
          rw [rows_len_iff]
          intro r hrr
          exact hrc2 r (List.mem_of_mem_take hrr)
        · dsimp only
          rw [rows_len_iff]
          intro r hrr
          exact hrf2 r (List.mem_of_mem_take hrr)
    · rw [if_neg hlt] at hv1
      cases hv1
      exact ⟨⟨h1, h2, hH, hW, hrc, hrf⟩, by omega, rfl, rfl, rfl, rfl, rfl, rfl, rfl⟩

theorem resizeWidthStep_some (v v3 : VT100) (w : Int)
    (hv3 : v.resizeWidthStep w = some v3) (hs : WFshape v) :
    WFshape v3 ∧ v3.Width = w ∧ v3.Height = v.Height ∧
    v3.savedCursor = v.savedCursor ∧ v3.AutoResizeY = v.AutoResizeY ∧
    v3.AutoResizeX = v.AutoResizeX ∧ v3.unparsed = v.unparsed ∧
    v3.Cursor = v.Cursor ∧ v3.maxY = v.maxY := by
  obtain ⟨h1, h2, hH, hW, hrc, hrf⟩ := hs
  have hrc2 := (rows_len_iff v.Content v.Width.toNat).mp hrc
  have hrf2 := (rows_len_iff v.Format v.Width.toNat).mp hrf
  unfold VT100.resizeWidthStep at hv3
  simp only [Option.bind_eq_bind, Option.pure_def] at hv3
  by_cases hgt : w > v.Width
  · rw [if_pos hgt] at hv3
    obtain ⟨g, hg, hpure⟩ := Option.bind_eq_some.mp hv3
    cases hpure
    obtain ⟨sg, gl1, gl2, ga1, gb1, ga2, gb2⟩ := growWAux_some v v.Width w _ g hg
    obtain ⟨gH, gW, gCur, gSav, gMax, gARY, gARX, gUnp⟩ := shell_fields sg
    refine ⟨⟨?_, ?_, by dsimp only; exact gH ▸ hH, by dsimp only; omega, ?_, ?_⟩,
      rfl, by dsimp only; exact gH, by dsimp only; exact gSav,
      by dsimp only; exact gARY, by dsimp only; exact gARX,
      by dsimp only; exact gUnp, by dsimp only; exact gCur,
      by dsimp only; exact gMax⟩
    · dsimp only
      rw [gl1, gH, h1]
    · dsimp only
      rw [gl2, gH, h2]
    · dsimp only
      intro i hi
      exact ga1 i (by omega) hi
    · dsimp only
      intro i hi
      exact ga2 i (by omega) hi
  · rw [if_neg hgt] at hv3
    by_cases hlt : w < v.Width
    · rw [if_pos hlt] at hv3
      by_cases hgd : w < 0 ∨ ¬(v.Content.all fun r => w.toNat ≤ r.length) ∨
          ¬(v.Format.all fun r => w.toNat ≤ r.length)
      · rw [if_pos hgd] at hv3
        cases hv3
      · rw [if_neg hgd] at hv3
        push_neg at hgd
        cases hv3
        refine ⟨⟨?_, ?_, by dsimp only; omega, by dsimp only; omega, ?_, ?_⟩,
          rfl, rfl, rfl, rfl, rfl, rfl, rfl, rfl⟩
        · dsimp only
          rw [List.length_map]
          exact h1
        · dsimp only
          rw [List.length_map]
          exact h2
        · dsimp only
          rw [rows_len_iff]
          intro r hrr
          obtain ⟨r0, hr0, rfl⟩ := List.mem_map.mp hrr
          rw [List.length_take, hrc2 r0 hr0]
          omega
        · dsimp only
          rw [rows_len_iff]
          intro r hrr
          obtain ⟨r0, hr0, rfl⟩ := List.mem_map.mp hrr
          rw [List.length_take, hrf2 r0 hr0]
          omega
    · rw [if_neg hlt] at hv3
      cases hv3
      exact ⟨⟨h1, h2, hH, hW, hrc, hrf⟩, by omega, rfl, rfl, rfl, rfl, rfl, rfl, rfl⟩

theorem resize_some (v u : VT100) (h w : Int) (hr : v.resize h w = some u)
    (hs : WFshape v) :
    WFshape u ∧ u.Height = h ∧ u.Width = w ∧
    u.savedCursor = v.savedCursor ∧ u.AutoResizeY = v.AutoResizeY ∧
    u.AutoResizeX = v.AutoResizeX ∧ u.unparsed = v.unparsed ∧
    u.Cursor.Y = v.Cursor.Y ∧ u.Cursor.F = v.Cursor.F ∧
    u.Cursor.X = (if v.Cursor.X ≥ w then w - 1 else v.Cursor.X) ∧
    u.maxY = (if h < v.maxY then h - 1 else v.maxY) := by
  unfold VT100.resize at hr
  simp only [Option.bind_eq_bind, Option.pure_def] at hr
  obtain ⟨v1, hv1, hrest⟩ := Option.bind_eq_some.mp hr
  obtain ⟨hs1, e1H, e1W, e1Sav, e1ARY, e1ARX, e1Unp, e1Cur, e1Max⟩ :=
    resizeHeightStep_some v v1 h hv1 hs
  have h2C : (if h < v1.maxY then { v1 with maxY := h - 1 } else v1).Cursor = v1.Cursor := by
    split <;> rfl
  have h2W : (if h < v1.maxY then { v1 with maxY := h - 1 } else v1).Width = v1.Width := by
    split <;> rfl
  have h2H : (if h < v1.maxY then { v1 with maxY := h - 1 } else v1).Height = v1.Height := by
    split <;> rfl
  have h2Sav : (if h < v1.maxY then { v1 with maxY := h - 1 } else v1).savedCursor =
      v1.savedCursor := by
    split <;> rfl
  have h2ARY : (if h < v1.maxY then { v1 with maxY := h - 1 } else v1).AutoResizeY =
      v1.AutoResizeY := by
    split <;> rfl
  have h2ARX : (if h < v1.maxY then { v1 with maxY := h - 1 } else v1).AutoResizeX =
      v1.AutoResizeX := by
    split <;> rfl
  have h2Unp : (if h < v1.maxY then { v1 with maxY := h - 1 } else v1).unparsed =
      v1.unparsed := by
    split <;> rfl
  have h2Max : (if h < v1.maxY then { v1 with maxY := h - 1 } else v1).maxY =
      (if h < v.maxY then h - 1 else v.maxY) := by
    rw [show (if h < v.maxY then h - 1 else v.maxY) =
        (if h < v1.maxY then h - 1 else v1.maxY) from by rw [e1Max]]
    split <;> rfl
  have hs2 : WFshape (if h < v1.maxY then { v1 with maxY := h - 1 } else v1) := by
    split
    · exact hs1
    · exact hs1
  obtain ⟨v3, hv3, hfin⟩ := Option.bind_eq_some.mp hrest
  obtain ⟨hs3, e3W, e3H, e3Sav, e3ARY, e3ARX, e3Unp, e3Cur, e3Max⟩ :=
    resizeWidthStep_some _ v3 w hv3 hs2
  have c3H : v3.Height = h := by rw [e3H, h2H]; exact e1H
  have c3Cur : v3.Cursor = v.Cursor := by rw [e3Cur, h2C]; exact e1Cur
  have c3Sav : v3.savedCursor = v.savedCursor := by rw [e3Sav, h2Sav]; exact e1Sav
  have c3ARY : v3.AutoResizeY = v.AutoResizeY := by rw [e3ARY, h2ARY]; exact e1ARY
  have c3ARX : v3.AutoResizeX = v.AutoResizeX := by rw [e3ARX, h2ARX]; exact e1ARX
  have c3Unp : v3.unparsed = v.unparsed := by rw [e3Unp, h2Unp]; exact e1Unp
  have c3Max : v3.maxY = (if h < v.maxY then h - 1 else v.maxY) := by rw [e3Max, h2Max]
  cases hfin
  by_cases hclx : v3.Cursor.X ≥ v3.Width
  · rw [if_pos hclx]
    have hgx : v.Cursor.X ≥ w := by
      rw [← e3W, ← c3Cur]
      exact hclx
    refine ⟨hs3, c3H, e3W, c3Sav, c3ARY, c3ARX, c3Unp, ?_, ?_, ?_, c3Max⟩
    · dsimp only
      rw [c3Cur]
    · dsimp only
      rw [c3Cur]
    · dsimp only
      rw [if_pos hgx, e3W]
  · rw [if_neg hclx]
    have hgx : ¬(v.Cursor.X ≥ w) := by
      rw [← e3W, ← c3Cur]
      exact hclx
    refine ⟨hs3, c3H, e3W, c3Sav, c3ARY, c3ARX, c3Unp, ?_, ?_, ?_, c3Max⟩
    · rw [c3Cur]
    · rw [c3Cur]
    · rw [if_neg hgx, c3Cur]

theorem WFshape_setCell (v : VT100) (hs : WFshape v) (a b : Nat) (r : Char) (f : Format) :
    WFshape { v with Content := setCell v.Content a b r,
                     Format := setCell v.Format a b f } := by
  obtain ⟨h1, h2, hH, hW, hrc, hrf⟩ := hs
  refine ⟨?_, ?_, hH, hW, ?_, ?_⟩
  · dsimp only
    rw [length_setCell]
    exact h1
  · dsimp only
    rw [length_setCell]
    exact h2
  · dsimp only
    intro i hi
    rw [length_setCell] at hi
    rw [rowlen_setCell]
    exact hrc i hi
  · dsimp only
    intro i hi
    rw [length_setCell] at hi
    rw [rowlen_setCell]
    exact hrf i hi

theorem advance_char (z : VT100) :
    (z.advance).Content = z.Content ∧ (z.advance).Format = z.Format ∧
    (z.advance).Height = z.Height ∧ (z.advance).Width = z.Width ∧
    (z.advance).savedCursor = z.savedCursor ∧ (z.advance).unparsed = z.unparsed ∧
    (z.advance).AutoResizeX = z.AutoResizeX ∧ (z.advance).AutoResizeY = z.AutoResizeY ∧
    (z.advance).maxY = z.maxY ∧ (z.advance).Cursor.F = z.Cursor.F ∧
    (z.advance).Cursor.X =
      (if z.Cursor.X + 1 ≥ z.Width ∧ z.AutoResizeX = false then 0 else z.Cursor.X + 1) := by
  unfold VT100.advance
  dsimp only
  by_cases hc : z.Cursor.X + 1 ≥ z.Width ∧ z.AutoResizeX = false
  · rw [if_pos hc, if_pos hc]
    exact ⟨rfl, rfl, rfl, rfl, rfl, rfl, rfl, rfl, rfl, rfl, rfl⟩
  · rw [if_neg hc, if_neg hc]
    exact ⟨rfl, rfl, rfl, rfl, rfl, rfl, rfl, rfl, rfl, rfl, rfl⟩

theorem WFshape_advance (z : VT100) (hs : WFshape z) : WFshape (z.advance) := by
  obtain ⟨a1, a2, a3, a4, _⟩ := advance_char z
  obtain ⟨h1, h2, hH, hW, hrc, hrf⟩ := hs
  rw [WFshape, a1, a2, a3, a4]
  exact ⟨h1, h2, hH, hW, hrc, hrf⟩

theorem scrollOrResizeY_some (v u : VT100) (h : v.scrollOrResizeYIfNeeded = some u)
    (hs : WFshape v) :
    WFshape u ∧ u.Width = v.Width ∧ u.savedCursor = v.savedCursor ∧
    u.AutoResizeY = v.AutoResizeY ∧ u.AutoResizeX = v.AutoResizeX ∧
    u.unparsed = v.unparsed ∧ u.Cursor.F = v.Cursor.F ∧
    (v.Cursor.X < v.Width → u.Cursor.X = v.Cursor.X) := by
  unfold VT100.scrollOrResizeYIfNeeded at h
  by_cases hy : v.Cursor.Y ≥ v.Height
  · rw [if_pos hy] at h
    by_cases hary : v.AutoResizeY = true
    · rw [if_pos hary] at h
      obtain ⟨hwf, _, hWi, hSav, hARY, hARX, hUnp, _, hF, hX, _⟩ :=
        resize_some v u _ _ h hs
      exact ⟨hwf, hWi, hSav, hARY, hARX, hUnp, hF, fun hlt => by
        rw [hX, if_neg (by omega)]⟩
    · rw [if_neg hary] at h
      obtain ⟨_, hWi, hX, hF, _, hSav, hARY, hARX, hUnp, _, hwf⟩ :=
        scrollOne_some v u h
      exact ⟨hwf hs, hWi, hSav, hARY, hARX, hUnp, hF, fun _ => hX⟩
  · rw [if_neg hy] at h
    cases h
    exact ⟨hs, rfl, rfl, rfl, rfl, rfl, rfl, fun _ => rfl⟩

theorem resizeXIfNeeded_some (v u : VT100) (h : v.resizeXIfNeeded = some u)
    (hs : WFshape v) :
    WFshape u ∧ u.savedCursor = v.savedCursor ∧ u.unparsed = v.unparsed ∧
    u.AutoResizeX = v.AutoResizeX ∧ u.AutoResizeY = v.AutoResizeY ∧
    (v.AutoResizeX = false → u = v) := by
  unfold VT100.resizeXIfNeeded at h
  by_cases hc : v.AutoResizeX = true ∧ v.Cursor.X + 1 ≥ v.Width
  · rw [if_pos hc] at h
    obtain ⟨hwf, _, _, hSav, hARY, hARX, hUnp, _⟩ := resize_some v u _ _ h hs
    exact ⟨hwf, hSav, hUnp, hARX, hARY, fun hfalse => by
      rw [hfalse] at hc
      exact absurd hc.1 (by decide)⟩
  · rw [if_neg hc] at h
    cases h
    exact ⟨hs, rfl, rfl, rfl, rfl, fun _ => rfl⟩

theorem put_some (v u : VT100) (r : Char) (h : v.put r = some u) (hs : WFshape v) :
    WFshape u ∧ u.savedCursor = v.savedCursor ∧ u.unparsed = v.unparsed ∧
    u.AutoResizeX = v.AutoResizeX ∧ u.AutoResizeY = v.AutoResizeY ∧
    (v.AutoResizeX = false → 0 ≤ v.Cursor.X → v.Cursor.X < v.Width →
      u.Width = v.Width ∧ 0 ≤ u.Cursor.X ∧ u.Cursor.X < u.Width) := by
  unfold VT100.put at h
  simp only [Option.bind_eq_bind, Option.pure_def] at h
  have hwf0 : WFshape (if v.Cursor.Y > v.maxY then { v with maxY := v.Cursor.Y } else v) := by
    split
    · exact hs
    · exact hs
  have ha : ∀ fld : VT100 → Cursor,
      fld (if v.Cursor.Y > v.maxY then { v with maxY := v.Cursor.Y } else v) = fld v ∨ True :=
    fun _ => Or.inr trivial
  have haC : (if v.Cursor.Y > v.maxY then { v with maxY := v.Cursor.Y } else v).Cursor =
      v.Cursor := by
    split <;> rfl
  have haW : (if v.Cursor.Y > v.maxY then { v with maxY := v.Cursor.Y } else v).Width =
      v.Width := by
    split <;> rfl
  have haSav : (if v.Cursor.Y > v.maxY then { v with maxY := v.Cursor.Y } else v).savedCursor =
      v.savedCursor := by
    split <;> rfl
  have haUnp : (if v.Cursor.Y > v.maxY then { v with maxY := v.Cursor.Y } else v).unparsed =
      v.unparsed := by
    split <;> rfl
  have haARX : (if v.Cursor.Y > v.maxY then { v with maxY := v.Cursor.Y } else v).AutoResizeX =
      v.AutoResizeX := by
    split <;> rfl
  have haARY : (if v.Cursor.Y > v.maxY then { v with maxY := v.Cursor.Y } else v).AutoResizeY =
      v.AutoResizeY := by
    split <;> rfl
  obtain ⟨vb, hb, hrest⟩ := Option.bind_eq_some.mp h
  obtain ⟨hwfb, hbW, hbSav, hbARY, hbARX, hbUnp, hbF, hbX⟩ :=
    scrollOrResizeY_some _ vb hb hwf0
  obtain ⟨vc, hc, hrest2⟩ := Option.bind_eq_some.mp hrest
  obtain ⟨hwfc, hcSav, hcUnp, hcARX, hcARY, hcId⟩ := resizeXIfNeeded_some vb vc hc hwfb
  by_cases hg1 : vc.Cursor.Y < 0 ∨ (vc.Content.length : Int) ≤ vc.Cursor.Y ∨ vc.Cursor.X < 0
  · rw [if_pos hg1] at hrest2
    cases hrest2
  · rw [if_neg hg1] at hrest2
    by_cases hg2 : (vc.Content.getD vc.Cursor.Y.toNat []).length ≤ vc.Cursor.X.toNat ∨
        vc.Format.length ≤ vc.Cursor.Y.toNat ∨
        (vc.Format.getD vc.Cursor.Y.toNat []).length ≤ vc.Cursor.X.toNat
    · rw [if_pos hg2] at hrest2
      cases hrest2
    · rw [if_neg hg2] at hrest2
      cases hrest2
      have hwfw : WFshape { vc with
          Content := setCell vc.Content vc.Cursor.Y.toNat vc.Cursor.X.toNat r,
          Format := setCell vc.Format vc.Cursor.Y.toNat vc.Cursor.X.toNat vc.Cursor.F } :=
        WFshape_setCell vc hwfc _ _ _ _
      obtain ⟨a1, a2, a3, a4, a5, a6, a7, a8, a9, a10, a11⟩ := advance_char
        { vc with Content := setCell vc.Content vc.Cursor.Y.toNat vc.Cursor.X.toNat r,
                  Format := setCell vc.Format vc.Cursor.Y.toNat vc.Cursor.X.toNat vc.Cursor.F }
      refine ⟨WFshape_advance _ hwfw, ?_, ?_, ?_, ?_, fun harx hx0 hxlt => ?_⟩
      · rw [a5]
        dsimp only
        rw [hcSav, hbSav, haSav]
      · rw [a6]
        dsimp only
        rw [hcUnp, hbUnp, haUnp]
      · rw [a7]
        dsimp only
        rw [hcARX, hbARX, haARX]
      · rw [a8]
        dsimp only
        rw [hcARY, hbARY, haARY]
      · have harx2 : vb.AutoResizeX = false := by rw [hbARX, haARX]; exact harx
        have hceq : vc = vb := hcId harx2
        have hxb : vb.Cursor.X = v.Cursor.X := by
          rw [hbX (by rw [haC, haW]; exact hxlt), haC]
        have hwb : vb.Width = v.Width := by rw [hbW, haW]
        subst hceq
        constructor
        · rw [a4]
          dsimp only
          exact hwb
        constructor
        · rw [a11]
          dsimp only
          rw [hxb]
          split <;> omega
        · rw [a11, a4]
          dsimp only
          rw [hxb, hwb]
          split
          · omega
          · next hcond =>
            have hA : ¬(v.Cursor.X + 1 ≥ v.Width) := fun hge => (not_and.mp hcond) hge harx2
            omega

theorem WFshape_congr (u v : VT100) (hC : u.Content = v.Content)
    (hF : u.Format = v.Format) (hH : u.Height = v.Height) (hW : u.Width = v.Width)
    (hs : WFshape v) : WFshape u := by
  rw [WFshape, hC, hF, hH, hW]
  exact hs

theorem backspace_grids (v : VT100) :
    (v.backspace).Content = v.Content ∧ (v.backspace).Format = v.Format ∧
    (v.backspace).Height = v.Height ∧ (v.backspace).Width = v.Width ∧
    (v.backspace).unparsed = v.unparsed := by
  unfold VT100.backspace
  dsimp only
  split
  · split
    · exact ⟨rfl, rfl, rfl, rfl, rfl⟩
    · exact ⟨rfl, rfl, rfl, rfl, rfl⟩
  · exact ⟨rfl, rfl, rfl, rfl, rfl⟩

theorem display_some (c : Command) (v u : VT100) (e : Bool)
    (h : display c v = some (u, e)) (hs : WFshape v) :
    WFshape u ∧ (e = true → u = v) ∧ u.unparsed = v.unparsed := by
  cases c with
  | putRune r =>
    simp only [display] at h
    obtain ⟨a, ha, hae⟩ := Option.map_eq_some'.mp h
    injection hae with hau hae2
    subst hau
    subst hae2
    obtain ⟨hwf, _, hunp, _, _, _⟩ := put_some v a r ha hs
    exact ⟨hwf, fun hfalse => (Bool.false_ne_true hfalse).elim, hunp⟩
  | control b =>
    simp only [display] at h
    by_cases h8 : b = Char.ofNat 8
    · rw [if_pos h8] at h
      cases h
      obtain ⟨g1, g2, g3, g4, g5⟩ := backspace_grids v
      exact ⟨WFshape_congr _ _ g1 g2 g3 g4 hs, fun hfalse => (Bool.false_ne_true hfalse).elim, g5⟩
    · rw [if_neg h8] at h
      by_cases h9 : b = Char.ofNat 9
      · rw [if_pos h9] at h
        cases h
        exact ⟨hs, fun hfalse => (Bool.false_ne_true hfalse).elim, rfl⟩
      · rw [if_neg h9] at h
        by_cases h10 : b = Char.ofNat 10
        · rw [if_pos h10] at h
          cases h
          exact ⟨hs, fun hfalse => (Bool.false_ne_true hfalse).elim, rfl⟩
        · rw [if_neg h10] at h
          by_cases h13 : b = Char.ofNat 13
          · rw [if_pos h13] at h
            cases h
            exact ⟨hs, fun hfalse => (Bool.false_ne_true hfalse).elim, rfl⟩
          · rw [if_neg h13] at h
            cases h
            exact ⟨hs, fun _ => rfl, rfl⟩
  | escape f ps =>
    simp only [display, displayEscape] at h
    by_cases hA : f = 'A'
    · rw [if_pos hA] at h
      cases h
      exact ⟨hs, fun hfalse => (Bool.false_ne_true hfalse).elim, rfl⟩
    · rw [if_neg hA] at h
      by_cases hB : f = 'B'
      · rw [if_pos hB] at h
        cases h
        exact ⟨hs, fun hfalse => (Bool.false_ne_true hfalse).elim, rfl⟩
      · rw [if_neg hB] at h
        by_cases hC : f = 'C'
        · rw [if_pos hC] at h
          cases h
          exact ⟨hs, fun hfalse => (Bool.false_ne_true hfalse).elim, rfl⟩
        · rw [if_neg hC] at h
          by_cases hD : f = 'D'
          · rw [if_pos hD] at h
            cases h
            exact ⟨hs, fun hfalse => (Bool.false_ne_true hfalse).elim, rfl⟩
          · rw [if_neg hD] at h
            by_cases hH : f = 'H' ∨ f = 'f'
            · rw [if_pos hH] at h
              cases h
              exact ⟨hs, fun hfalse => (Bool.false_ne_true hfalse).elim, rfl⟩
            · rw [if_neg hH] at h
              by_cases hJ : f = 'J'
              · rw [if_pos hJ] at h
                rcases hmode : argDef0 ps with _ | _ | _ | k <;> rw [hmode] at h
                · obtain ⟨a, ha, hae⟩ := Option.map_eq_some'.mp h
                  injection hae with hau hae2
                  subst hau
                  subst hae2
                  obtain ⟨hsh, hd⟩ := eraseLines_some v a _ ha
                  exact ⟨WFshape_of_dimsEq hd hsh hs, fun hfalse => (Bool.false_ne_true hfalse).elim,
                    (shell_fields hsh).2.2.2.2.2.2.2⟩
                · obtain ⟨a, ha, hae⟩ := Option.map_eq_some'.mp h
                  injection hae with hau hae2
                  subst hau
                  subst hae2
                  obtain ⟨hsh, hd⟩ := eraseLines_some v a _ ha
                  exact ⟨WFshape_of_dimsEq hd hsh hs, fun hfalse => (Bool.false_ne_true hfalse).elim,
                    (shell_fields hsh).2.2.2.2.2.2.2⟩
                · obtain ⟨a, ha, hae⟩ := Option.map_eq_some'.mp h
                  injection hae with hau hae2
                  subst hau
                  subst hae2
                  obtain ⟨hsh, hd⟩ := eraseLines_some v a _ ha
                  exact ⟨WFshape_of_dimsEq hd hsh hs, fun hfalse => (Bool.false_ne_true hfalse).elim,
                    (shell_fields hsh).2.2.2.2.2.2.2⟩
                · cases h
                  exact ⟨hs, fun _ => rfl, rfl⟩
              · rw [if_neg hJ] at h
                by_cases hK : f = 'K'
                · rw [if_pos hK] at h
                  rcases hmode : argDef0 ps with _ | _ | _ | k <;> rw [hmode] at h
                  · obtain ⟨a, ha, hae⟩ := Option.map_eq_some'.mp h
                    injection hae with hau hae2
                    subst hau
                    subst hae2
                    obtain ⟨hsh, hd⟩ := eraseColumns_some v a _ ha
                    exact ⟨WFshape_of_dimsEq hd hsh hs, fun hfalse => (Bool.false_ne_true hfalse).elim,
                      (shell_fields hsh).2.2.2.2.2.2.2⟩
                  · obtain ⟨a, ha, hae⟩ := Option.map_eq_some'.mp h
                    injection hae with hau hae2
                    subst hau
                    subst hae2
                    obtain ⟨hsh, hd⟩ := eraseColumns_some v a _ ha
                    exact ⟨WFshape_of_dimsEq hd hsh hs, fun hfalse => (Bool.false_ne_true hfalse).elim,
                      (shell_fields hsh).2.2.2.2.2.2.2⟩
                  · obtain ⟨a, ha, hae⟩ := Option.map_eq_some'.mp h
                    injection hae with hau hae2
                    subst hau
                    subst hae2
                    obtain ⟨hsh, hd⟩ := eraseColumns_some v a _ ha
                    exact ⟨WFshape_of_dimsEq hd hsh hs, fun hfalse => (Bool.false_ne_true hfalse).elim,
                      (shell_fields hsh).2.2.2.2.2.2.2⟩
                  · cases h
                    exact ⟨hs, fun _ => rfl, rfl⟩
                · rw [if_neg hK] at h
                  by_cases hm : f = 'm'
                  · rw [if_pos hm] at h
                    cases h
                    exact ⟨hs, fun hfalse => (Bool.false_ne_true hfalse).elim, rfl⟩
                  · rw [if_neg hm] at h
                    by_cases hsv : f = 's'
                    · rw [if_pos hsv] at h
                      cases h
                      exact ⟨hs, fun hfalse => (Bool.false_ne_true hfalse).elim, rfl⟩
                    · rw [if_neg hsv] at h
                      by_cases hu : f = 'u'
                      · rw [if_pos hu] at h
                        cases h
                        exact ⟨hs, fun hfalse => (Bool.false_ne_true hfalse).elim, rfl⟩
                      · rw [if_neg hu] at h
                        cases h
                        exact ⟨hs, fun _ => rfl, rfl⟩

theorem procN_WF (fuel : Nat) :
    ∀ (v : VT100) (buf : List Char) (u : VT100) (r : List Char),
      procN fuel v buf = some (u, r) → WFshape v → WFshape u ∧ u.unparsed = v.unparsed := by
  induction fuel with
  | zero =>
    intro v buf u r h hs
    cases h
    exact ⟨hs, rfl⟩
  | succ n ih =>
    intro v buf u r h hs
    unfold procN at h
    cases hd : decode buf <;> rw [hd] at h
    · cases h
      exact ⟨hs, rfl⟩
    · cases h
      exact ⟨hs, rfl⟩
    · cases h
      exact ⟨hs, rfl⟩
    · next c rest =>
      simp only [Option.bind_eq_bind] at h
      obtain ⟨p, hp, h2⟩ := Option.bind_eq_some.mp h
      obtain ⟨hwfp, _, hunp⟩ := display_some c v p.1 p.2 hp hs
      obtain ⟨hwfu, hunu⟩ := ih p.1 rest u r h2 hwfp
      exact ⟨hwfu, hunu.trans hunp⟩

/-- C5: a command that fails (an unsupported final byte, or an
unsupported erase mode) leaves the terminal unchanged, and every command
application and every Write that returns preserves the grid-shape
invariants: exactly Height rows in Content and in Format, every row of
length Width.  Process is display under the lock, so the first conjunct
covers Process as well. -/
theorem C5_atomicity :
    (∀ (c : Command) (v u : VT100) (e : Bool), display c v = some (u, e) → WFshape v →
      WFshape u ∧ (e = true → u = v)) ∧
    (∀ (v : VT100) (dt : List Char) (u : VT100) (n : Nat),
      VT100.Write v dt = some (u, n) → WFshape v → WFshape u) := by
  constructor
  · intro c v u e h hs
    obtain ⟨hwf, hun, _⟩ := display_some c v u e h hs
    exact ⟨hwf, hun⟩
  · intro v dt u n h hs
    unfold VT100.Write at h
    simp only [Option.bind_eq_bind] at h
    obtain ⟨p, hp, h2⟩ := Option.bind_eq_some.mp h
    injection h2 with h3
    injection h3 with h4 h5
    unfold procBuf at hp
    have hs0 : WFshape { v with unparsed := [] } := hs
    obtain ⟨hwfp, _⟩ := procN_WF _ _ _ _ _ hp hs0
    rw [← h4]
    exact hwfp

/-- C5 witness: an unsupported escape (final byte Z) on a concrete
terminal is reported as an error and leaves the state unchanged, and the
state is well-shaped. -/
theorem C5_atomicity_witness :
    WFshape (fromLines [['a', 'b']]) ∧
    (true = true → fromLines [['a', 'b']] = fromLines [['a', 'b']]) :=
  C5_atomicity.1 (.escape 'Z' []) (fromLines [['a', 'b']]) (fromLines [['a', 'b']])
    true (by decide) (by decide)

/-- A cursor-motion escape: CUU/CUD/CUF/CUB and CUP (CSI A, B, C, D, H,
f), the commands whose handlers assign the cursor without clamping. -/
def isMotionEscape : Command → Bool
  | .escape f _ => f = 'A' || f = 'B' || f = 'C' || f = 'D' || f = 'H' || f = 'f'
  | _ => false

/-- C2 counterexample: CSI 100 C (cursor forward 100) on a fresh 2-by-3
terminal is applied without error and leaves cursor.x = 100, which is
neither < width = 3 nor the momentary wrap value width; the claimed
invariant fails for cursor-motion escapes with arbitrary counts. -/
theorem C2_counterexample :
    (display (.escape 'C' [some 100]) (fromLines [[' ',' ',' '], [' ',' ',' ']])).map
      (fun p => (p.1.Cursor.X, p.1.Width, p.2)) = some (100, 3, false) ∧
    ¬((100 : Int) < 3 ∨ (100 : Int) = 3) := by
  constructor
  · decide
  · decide

/-- C2 amended: with autoResizeX off, every command OTHER than the
cursor-motion escapes (CSI A/B/C/D/H/f) preserves 0 ≤ cursor.x < width
(and the same bounds for the saved cursor, which CSI u restores), with
the width unchanged or grown and the flag still off; after such a
command no out-of-range column is ever observable - the momentary
cursor.x = width wrap state is internal to put and already normalized
when the command returns.  Cursor-motion escapes perform no clamping and
break the invariant (see the counterexample). -/
theorem C2_cursor_x_invariant (c : Command) (v u : VT100) (e : Bool)
    (hs : WFshape v) (harx : v.AutoResizeX = false)
    (hx0 : 0 ≤ v.Cursor.X) (hxlt : v.Cursor.X < v.Width)
    (hsx0 : 0 ≤ v.savedCursor.X) (hsxlt : v.savedCursor.X < v.Width)
    (hmot : isMotionEscape c = false)
    (h : display c v = some (u, e)) :
    WFshape u ∧ u.AutoResizeX = false ∧
    0 ≤ u.Cursor.X ∧ u.Cursor.X < u.Width ∧
    0 ≤ u.savedCursor.X ∧ u.savedCursor.X < u.Width := by
  have hwfu : WFshape u := (display_some c v u e h hs).1
  refine ⟨hwfu, ?_⟩
  cases c with
  | putRune r =>
    simp only [display] at h
    obtain ⟨a, ha, hae⟩ := Option.map_eq_some'.mp h
    injection hae with hau hae2
    subst hau
    subst hae2
    obtain ⟨_, hsav, _, harxa, _, hput⟩ := put_some v a r ha hs
    obtain ⟨hWu, hxu0, hxult⟩ := hput harx hx0 hxlt
    refine ⟨by rw [harxa]; exact harx, hxu0, hxult, ?_, ?_⟩
    · rw [hsav]
      exact hsx0
    · rw [hsav, hWu]
      exact hsxlt
  | control b =>
    simp only [display] at h
    by_cases h8 : b = Char.ofNat 8
    · rw [if_pos h8] at h
      injection h with h1
      injection h1 with h1 h2
      subst h1
      try dsimp only
      unfold VT100.backspace
      dsimp only
      split
      · split
        · dsimp only
          exact ⟨harx, by omega, by omega, hsx0, hsxlt⟩
        · dsimp only
          exact ⟨harx, by omega, by omega, hsx0, hsxlt⟩
      · next hge =>
        push_neg at hge
        dsimp only
        exact ⟨harx, by omega, by omega, hsx0, hsxlt⟩
    · rw [if_neg h8] at h
      by_cases h9 : b = Char.ofNat 9
      · rw [if_pos h9] at h
        injection h with h1
        injection h1 with h1 h2
        subst h1
        try dsimp only
        unfold tab
        dsimp only
        have hts : 0 ≤ (Int.tdiv v.Cursor.X 4 + 1) * 4 := by
          have := Int.tdiv_nonneg hx0 (by omega : (0 : Int) ≤ 4)
          omega
        split
        · try dsimp only
          exact ⟨harx, by omega, by omega, hsx0, hsxlt⟩
        · try dsimp only
          exact ⟨harx, by omega, by omega, hsx0, hsxlt⟩
      · rw [if_neg h9] at h
        by_cases h10 : b = Char.ofNat 10
        · rw [if_pos h10] at h
          injection h with h1
          injection h1 with h1 h2
          subst h1
          try dsimp only
          exact ⟨harx, hx0, hxlt, hsx0, hsxlt⟩
        · rw [if_neg h10] at h
          by_cases h13 : b = Char.ofNat 13
          · rw [if_pos h13] at h
            injection h with h1
            injection h1 with h1 h2
            subst h1
            try dsimp only
            exact ⟨harx, by omega, by omega, hsx0, hsxlt⟩
          · rw [if_neg h13] at h
            injection h with h1
            injection h1 with h1 h2
            subst h1
            try dsimp only
            exact ⟨harx, hx0, hxlt, hsx0, hsxlt⟩
  | escape f ps =>
    simp only [isMotionEscape, Bool.or_eq_false_iff, decide_eq_false_iff_not] at hmot
    obtain ⟨⟨⟨⟨⟨hnA, hnB⟩, hnC⟩, hnD⟩, hnH⟩, hnf⟩ := hmot
    simp only [display, displayEscape] at h
    rw [if_neg hnA, if_neg hnB, if_neg hnC, if_neg hnD,
      if_neg (by push_neg; exact ⟨hnH, hnf⟩)] at h
    by_cases hJ : f = 'J'
    · rw [if_pos hJ] at h
      have herase : ∀ w : VT100, shell w = shell v →
          w.AutoResizeX = false ∧ 0 ≤ w.Cursor.X ∧ w.Cursor.X < w.Width ∧
          0 ≤ w.savedCursor.X ∧ w.savedCursor.X < w.Width := by
        intro w hsh
        obtain ⟨_, hW, hCur, hSav, _, _, hARX, _⟩ := shell_fields hsh
        rw [hW, hCur, hSav, hARX]
        exact ⟨harx, hx0, hxlt, hsx0, hsxlt⟩
      rcases hmode : argDef0 ps with _ | _ | _ | k <;> rw [hmode] at h
      · obtain ⟨a, ha, hae⟩ := Option.map_eq_some'.mp h
        injection hae with hau hae2
        subst hau
        subst hae2
        exact herase a (eraseLines_some v a _ ha).1
      · obtain ⟨a, ha, hae⟩ := Option.map_eq_some'.mp h
        injection hae with hau hae2
        subst hau
        subst hae2
        exact herase a (eraseLines_some v a _ ha).1
      · obtain ⟨a, ha, hae⟩ := Option.map_eq_some'.mp h
        injection hae with hau hae2
        subst hau
        subst hae2
        exact herase a (eraseLines_some v a _ ha).1
      · injection h with h1
        injection h1 with h1 h2
        subst h1
        try dsimp only
        exact ⟨harx, hx0, hxlt, hsx0, hsxlt⟩
    · rw [if_neg hJ] at h
      by_cases hK : f = 'K'
      · rw [if_pos hK] at h
        have herase : ∀ w : VT100, shell w = shell v →
            w.AutoResizeX = false ∧ 0 ≤ w.Cursor.X ∧ w.Cursor.X < w.Width ∧
            0 ≤ w.savedCursor.X ∧ w.savedCursor.X < w.Width := by
          intro w hsh
          obtain ⟨_, hW, hCur, hSav, _, _, hARX, _⟩ := shell_fields hsh
          rw [hW, hCur, hSav, hARX]
          exact ⟨harx, hx0, hxlt, hsx0, hsxlt⟩
        rcases hmode : argDef0 ps with _ | _ | _ | k <;> rw [hmode] at h
        · obtain ⟨a, ha, hae⟩ := Option.map_eq_some'.mp h
          injection hae with hau hae2
          subst hau
          subst hae2
          exact herase a (eraseColumns_some v a _ ha).1
        · obtain ⟨a, ha, hae⟩ := Option.map_eq_some'.mp h
          injection hae with hau hae2
          subst hau
          subst hae2
          exact herase a (eraseColumns_some v a _ ha).1
        · obtain ⟨a, ha, hae⟩ := Option.map_eq_some'.mp h
          injection hae with hau hae2
          subst hau
          subst hae2
          exact herase a (eraseColumns_some v a _ ha).1
        · injection h with h1
          injection h1 with h1 h2
          subst h1
          try dsimp only
          exact ⟨harx, hx0, hxlt, hsx0, hsxlt⟩
      · rw [if_neg hK] at h
        by_cases hm : f = 'm'
        · rw [if_pos hm] at h
          injection h with h1
          injection h1 with h1 h2
          subst h1
          try dsimp only
          exact ⟨harx, hx0, hxlt, hsx0, hsxlt⟩
        · rw [if_neg hm] at h
          by_cases hsv : f = 's'
          · rw [if_pos hsv] at h
            injection h with h1
            injection h1 with h1 h2
            subst h1
            try dsimp only
            exact ⟨harx, hx0, hxlt, hx0, hxlt⟩
          · rw [if_neg hsv] at h
            by_cases hu : f = 'u'
            · rw [if_pos hu] at h
              injection h with h1
              injection h1 with h1 h2
              subst h1
              try dsimp only
              exact ⟨harx, hsx0, hsxlt, hsx0, hsxlt⟩
            · rw [if_neg hu] at h
              injection h with h1
              injection h1 with h1 h2
              subst h1
              try dsimp only
              exact ⟨harx, hx0, hxlt, hsx0, hsxlt⟩

/-- C2 witness: a carriage return on a concrete terminal keeps the
column invariant. -/
theorem C2_cursor_x_invariant_witness :
    WFshape (fromLines [['a', 'b', 'c']]) ∧
    (fromLines [['a', 'b', 'c']]).AutoResizeX = false ∧
    (0 : Int) ≤ (fromLines [['a', 'b', 'c']]).Cursor.X ∧
    (fromLines [['a', 'b', 'c']]).Cursor.X < (fromLines [['a', 'b', 'c']]).Width ∧
    (0 : Int) ≤ (fromLines [['a', 'b', 'c']]).savedCursor.X ∧
    (fromLines [['a', 'b', 'c']]).savedCursor.X < (fromLines [['a', 'b', 'c']]).Width := by
  have := C2_cursor_x_invariant (.control (Char.ofNat 13)) (fromLines [['a', 'b', 'c']])
    (fromLines [['a', 'b', 'c']]) false (by decide) (by decide) (by decide) (by decide)
    (by decide) (by decide) (by decide) (by decide)
  exact this

theorem decodeCSI_ne_eof (l : List Char) :
    ∀ acc cur, decodeCSI acc cur l ≠ .eofR := by
  induction l with
  | nil => intro acc cur h; cases h
  | cons ch l ih =>
    intro acc cur h
    unfold decodeCSI at h
    split at h
    · exact ih _ _ h
    · split at h
      · exact ih _ _ h
      · split at h
        · cases h
        · cases h

theorem skipEscape_ne_eof (l : List Char) : skipEscape l ≠ .eofR := by
  induction l with
  | nil => intro h; cases h
  | cons ch l ih =>
    intro h
    unfold skipEscape at h
    split at h
    · cases h
    · exact ih h

theorem decodeEscape_ne_eof (l : List Char) : decodeEscape l ≠ .eofR := by
  cases l with
  | nil => intro h; cases h
  | cons ch l =>
    intro h
    unfold decodeEscape at h
    dsimp only at h
    split at h
    · exact decodeCSI_ne_eof l _ _ h
    · exact skipEscape_ne_eof _ h

theorem decode_eof (d : List Char) (h : decode d = .eofR) : d = [] := by
  cases d with
  | nil => rfl
  | cons ch l =>
    exfalso
    unfold decode at h
    dsimp only at h
    split at h
    · exact decodeEscape_ne_eof l h
    · split at h
      · cases h
      · cases h

theorem decodeCSI_length (l : List Char) :
    ∀ acc cur c rest, decodeCSI acc cur l = .ok c rest → rest.length < l.length := by
  induction l with
  | nil => intro acc cur c rest h; cases h
  | cons ch l ih =>
    intro acc cur c rest h
    unfold decodeCSI at h
    split at h
    · have := ih _ _ _ _ h
      simp only [List.length_cons]
      omega
    · split at h
      · have := ih _ _ _ _ h
        simp only [List.length_cons]
        omega
      · split at h
        · injection h with h1 h2
          subst h2
          simp
        · cases h

theorem skipEscape_length (l : List Char) :
    ∀ c rest, skipEscape l = .ok c rest → rest.length < l.length := by
  induction l with
  | nil => intro c rest h; cases h
  | cons ch l ih =>
    intro c rest h
    unfold skipEscape at h
    split at h
    · injection h with h1 h2
      subst h2
      simp
    · have := ih _ _ h
      simp only [List.length_cons]
      omega

theorem decodeEscape_length (l : List Char) :
    ∀ c rest, decodeEscape l = .ok c rest → rest.length < l.length := by
  cases l with
  | nil => intro c rest h; cases h
  | cons ch l =>
    intro c rest h
    unfold decodeEscape at h
    dsimp only at h
    split at h
    · have := decodeCSI_length l _ _ _ _ h
      simp only [List.length_cons]
      omega
    · exact skipEscape_length _ _ _ h

theorem decode_length (d : List Char) {c : Command} {rest : List Char}
    (h : decode d = .ok c rest) : rest.length < d.length := by
  cases d with
  | nil => cases h
  | cons ch l =>
    unfold decode at h
    dsimp only at h
    split at h
    · have := decodeEscape_length l _ _ h
      simp only [List.length_cons]
      omega
    · split at h
      · injection h with h1 h2
        subst h2
        simp
      · injection h with h1 h2
        subst h2
        simp

theorem decodeCSI_append (l b : List Char) :
    ∀ acc cur c rest, decodeCSI acc cur l = .ok c rest →
      decodeCSI acc cur (l ++ b) = .ok c (rest ++ b) := by
  induction l with
  | nil => intro acc cur c rest h; cases h
  | cons ch l ih =>
    intro acc cur c rest h
    rw [List.cons_append]
    unfold decodeCSI at h ⊢
    split at h
    · next hd =>
      rw [if_pos hd]
      exact ih _ _ _ _ h
    · next hd =>
      rw [if_neg hd]
      split at h
      · next hsemi =>
        rw [if_pos hsemi]
        exact ih _ _ _ _ h
      · next hsemi =>
        rw [if_neg hsemi]
        split at h
        · next hfin =>
          rw [if_pos hfin]
          injection h with h1 h2
          subst h1
          subst h2
          rfl
        · cases h

theorem skipEscape_append (l b : List Char) :
    ∀ c rest, skipEscape l = .ok c rest →
      skipEscape (l ++ b) = .ok c (rest ++ b) := by
  induction l with
  | nil => intro c rest h; cases h
  | cons ch l ih =>
    intro c rest h
    rw [List.cons_append]
    unfold skipEscape at h ⊢
    split at h
    · next hfin =>
      rw [if_pos hfin]
      injection h with h1 h2
      subst h1
      subst h2
      rfl
    · next hfin =>
      rw [if_neg hfin]
      exact ih _ _ h

theorem decodeEscape_append (l b : List Char) :
    ∀ c rest, decodeEscape l = .ok c rest →
      decodeEscape (l ++ b) = .ok c (rest ++ b) := by
  cases l with
  | nil => intro c rest h; cases h
  | cons ch l =>
    intro c rest h
    rw [List.cons_append]
    unfold decodeEscape at h ⊢
    dsimp only at h ⊢
    split at h
    · next hbr =>
      rw [if_pos hbr]
      exact decodeCSI_append l b _ _ _ _ h
    · next hbr =>
      rw [if_neg hbr]
      rw [← List.cons_append]
      exact skipEscape_append _ b _ _ h

theorem decode_append (d b : List Char) {c : Command} {rest : List Char}
    (h : decode d = .ok c rest) : decode (d ++ b) = .ok c (rest ++ b) := by
  cases d with
  | nil => cases h
  | cons ch l =>
    rw [List.cons_append]
    unfold decode at h ⊢
    dsimp only at h ⊢
    split at h
    · next hesc =>
      rw [if_pos hesc]
      exact decodeEscape_append l b _ _ h
    · next hesc =>
      rw [if_neg hesc]
      split at h
      · next hctl =>
        rw [if_pos hctl]
        injection h with h1 h2
        subst h1
        subst h2
        rfl
      · next hctl =>
        rw [if_neg hctl]
        injection h with h1 h2
        subst h1
        subst h2
        rfl

theorem procN_nil (n : Nat) (v : VT100) : procN n v [] = some (v, []) := by
  cases n with
  | zero => rfl
  | succ n => rfl

theorem procN_congr (n : Nat) :
    ∀ (m : Nat) (v : VT100) (buf : List Char), buf.length ≤ n → buf.length ≤ m →
      procN n v buf = procN m v buf := by
  induction n with
  | zero =>
    intro m v buf h1 h2
    have hb : buf = [] := List.eq_nil_of_length_eq_zero (by omega)
    subst hb
    rw [procN_nil, procN_nil]
  | succ n ih =>
    intro m v buf h1 h2
    cases buf with
    | nil => rw [procN_nil, procN_nil]
    | cons ch rest0 =>
      obtain ⟨m2, rfl⟩ : ∃ m2, m = m2 + 1 :=
        ⟨m - 1, by simp only [List.length_cons] at h2; omega⟩
      cases hd : decode (ch :: rest0) with
      | eofR => exact absurd (decode_eof _ hd) (by simp)
      | needMore =>
        show procN (n + 1) v (ch :: rest0) = procN (m2 + 1) v (ch :: rest0)
        unfold procN
        rw [hd]
      | badInput =>
        show procN (n + 1) v (ch :: rest0) = procN (m2 + 1) v (ch :: rest0)
        unfold procN
        rw [hd]
      | ok c rest =>
        have hlen := decode_length _ hd
        simp only [List.length_cons] at h1 h2 hlen
        show procN (n + 1) v (ch :: rest0) = procN (m2 + 1) v (ch :: rest0)
        unfold procN
        rw [hd]
        dsimp only
        cases hdisp : display c v with
        | none => rfl
        | some p =>
          simp only [Option.bind_eq_bind, Option.some_bind]
          exact ih m2 p.1 rest (by omega) (by omega)

theorem procBuf_append_aux (N : Nat) :
    ∀ (d b : List Char) (v : VT100), d.length ≤ N →
      procBuf v (d ++ b) = (procBuf v d).bind (fun p => procBuf p.1 (p.2 ++ b)) := by
  induction N with
  | zero =>
    intro d b v h
    have hd : d = [] := List.eq_nil_of_length_eq_zero (by omega)
    subst hd
    rw [show procBuf v [] = some (v, ([] : List Char)) from rfl]
    simp only [Option.some_bind, List.nil_append]
  | succ N ih =>
    intro d b v hlen
    cases hdeq : decode d with
    | eofR =>
      have hd : d = [] := decode_eof _ hdeq
      subst hd
      rw [show procBuf v [] = some (v, ([] : List Char)) from rfl]
      simp only [Option.some_bind, List.nil_append]
    | needMore =>
      have hdne : d ≠ [] := by
        intro hh
        rw [hh] at hdeq
        cases hdeq
      obtain ⟨K, hK⟩ : ∃ K, d.length = K + 1 :=
        ⟨d.length - 1, by cases d with | nil => exact absurd rfl hdne | cons x l => simp⟩
      have hRHS : procBuf v d = some (v, d) := by
        unfold procBuf
        rw [hK]
        simp only [procN]
        rw [hdeq]
      rw [hRHS]
      simp only [Option.some_bind]
    | badInput =>
      have hdne : d ≠ [] := by
        intro hh
        rw [hh] at hdeq
        cases hdeq
      obtain ⟨K, hK⟩ : ∃ K, d.length = K + 1 :=
        ⟨d.length - 1, by cases d with | nil => exact absurd rfl hdne | cons x l => simp⟩
      have hRHS : procBuf v d = some (v, d) := by
        unfold procBuf
        rw [hK]
        simp only [procN]
        rw [hdeq]
      rw [hRHS]
      simp only [Option.some_bind]
    | ok c rest =>
      have hlen2 := decode_length d hdeq
      have hdne : d ≠ [] := by
        intro hh
        rw [hh] at hdeq
        cases hdeq
      obtain ⟨K, hK⟩ : ∃ K, d.length = K + 1 :=
        ⟨d.length - 1, by cases d with | nil => exact absurd rfl hdne | cons x l => simp⟩
      have happ := decode_append d b hdeq
      have hLHS : procBuf v (d ++ b) =
          (display c v).bind (fun p => procN (K + b.length) p.1 (rest ++ b)) := by
        unfold procBuf
        rw [List.length_append, hK,
          show K + 1 + b.length = (K + b.length) + 1 from by omega]
        simp only [procN]
        rw [happ]
        rfl
      have hRHS : procBuf v d = (display c v).bind (fun p => procN K p.1 rest) := by
        unfold procBuf
        rw [hK]
        simp only [procN]
        rw [hdeq]
        rfl
      rw [hLHS, hRHS]
      cases hdisp : display c v with
      | none => rfl
      | some p =>
        simp only [Option.bind_eq_bind, Option.some_bind]
        have e1 : procN (K + b.length) p.1 (rest ++ b) = procBuf p.1 (rest ++ b) := by
          unfold procBuf
          exact procN_congr _ _ _ _ (by rw [List.length_append]; omega) le_rfl
        have e2 : procN K p.1 rest = procBuf p.1 rest := by
          unfold procBuf
          exact procN_congr _ _ _ _ (by omega) le_rfl
        rw [e1, e2]
        exact ih rest b p.1 (by omega)

theorem procBuf_append (d b : List Char) (v : VT100) :
    procBuf v (d ++ b) = (procBuf v d).bind (fun p => procBuf p.1 (p.2 ++ b)) :=
  procBuf_append_aux d.length d b v le_rfl

/-- Resetting the unparsed field of an update that only set that field
recovers the original terminal when its residual was empty. -/
theorem unparsed_reset (u : VT100) (hu : u.unparsed = []) (s : List Char) :
    ({ { u with unparsed := s } with unparsed := [] } : VT100) = u := by
  rw [← hu]

set_option maxHeartbeats 1000000 in
/-- C6: writing a byte stream in two calls is equivalent to writing the
concatenation in one call, provided the first call's residual is small
enough to be stashed (fewer than 12 runes): the resulting terminals agree.
Stated over Write from vt100.go with the decoder modelled from the spec. -/
theorem C6_write_split (v : VT100) (a b : List Char) (v1 : VT100) (r : List Char)
    (hs : WFshape v)
    (h1 : procBuf { v with unparsed := [] } (v.unparsed ++ a) = some (v1, r))
    (hsmall : r.length < 12) :
    ((v.Write a).bind fun p => p.1.Write b).map (fun p => p.1) =
      (v.Write (a ++ b)).map (fun p => p.1) := by
  have hs' : WFshape { v with unparsed := ([] : List Char) } := hs
  obtain ⟨hWF1, hv1unp⟩ := procN_WF _ _ _ _ _ h1 hs'
  have hv1nil : v1.unparsed = [] := hv1unp
  have hstash : (if 0 < r.length ∧ r.length < 12 then r else ([] : List Char)) = r := by
    by_cases hr : 0 < r.length
    · rw [if_pos ⟨hr, hsmall⟩]
    · rw [if_neg (fun hc => hr hc.1)]
      have hrnil : r = [] := List.eq_nil_of_length_eq_zero (by omega)
      rw [hrnil]
  have hWa : v.Write a = some ({ v1 with unparsed := r }, a.length) := by
    unfold VT100.Write
    rw [h1]
    simp only [Option.bind_eq_bind, Option.some_bind]
    rw [hstash]
  have hWb : ({ v1 with unparsed := r } : VT100).Write b =
      (procBuf v1 (r ++ b)).bind (fun q =>
        some ({ q.1 with
                  unparsed := if 0 < q.2.length ∧ q.2.length < 12 then q.2 else [] },
              b.length)) := by
    unfold VT100.Write
    rw [unparsed_reset v1 hv1nil r]
    rfl
  have hWab : v.Write (a ++ b) =
      (procBuf v1 (r ++ b)).bind (fun q =>
        some ({ q.1 with
                  unparsed := if 0 < q.2.length ∧ q.2.length < 12 then q.2 else [] },
              (a ++ b).length)) := by
    unfold VT100.Write
    rw [show v.unparsed ++ (a ++ b) = (v.unparsed ++ a) ++ b from
          (List.append_assoc _ _ _).symm,
        procBuf_append, h1]
    rfl
  rw [hWa, hWab]
  simp only [Option.bind_eq_bind, Option.some_bind]
  rw [hWb]
  cases procBuf v1 (r ++ b) with
  | none => rfl
  | some q => rfl

/-- Witness for C6 — split an ESC [ 2 J erase across two Write calls on a
two-column one-row terminal: the first call stashes the lone escape rune. -/
theorem C6_write_split_witness :
    WFshape (fromLines [['.', '.']]) ∧
    procBuf { fromLines [['.', '.']] with unparsed := [] }
        ((fromLines [['.', '.']]).unparsed ++ [Char.ofNat 27]) =
      some (fromLines [['.', '.']], [Char.ofNat 27]) ∧
    ([Char.ofNat 27] : List Char).length < 12 ∧
    (((fromLines [['.', '.']]).Write [Char.ofNat 27]).bind
        (fun p => p.1.Write ['[', '2', 'J'])).map (fun p => p.1) =
      ((fromLines [['.', '.']]).Write ([Char.ofNat 27] ++ ['[', '2', 'J'])).map
        (fun p => p.1) :=
  ⟨by decide, by decide, by decide,
   C6_write_split (fromLines [['.', '.']]) [Char.ofNat 27] ['[', '2', 'J']
     (fromLines [['.', '.']]) [Char.ofNat 27] (by decide) (by decide) (by decide)⟩
